import Mathlib

/-!
# byo-organization-tool: the route collection pipeline

A shallow embedding of `src/main.go` and `src/pkg/models/internet-route.go`.

* Go `*string` fields are `Option String` (`nil` is `none`).
* The AWS collaborators are inputs: a `Backend` gives, for an account and a
  region, the results of the successive `paginator.NextPage` calls.
* A goroutine body is a sequential function that returns what it sends on its
  output channel and how it stopped (`Ctl`).
* Goroutines that run together are a transition system: a state, one step per
  statement that touches a channel or the `WaitGroup`, and an interleaving is
  a list of steps. An unbuffered send and its receive are one step.
-/

namespace OrgTool

/-! ## Data model -/

/-- The record `models.InternetRoute` of `pkg/models/internet-route.go`. -/
structure InternetRoute where
  Account : String
  Region : String
  Vpc : Option String
  RouteTable : Option String
  DestinationCidr : Option String
  InternetGateway : Option String
deriving DecidableEq, Repr

/-- The fields of an EC2 `types.Route` that `getRoute` reads. -/
structure Route where
  GatewayId : Option String
  DestinationCidrBlock : Option String
deriving DecidableEq, Repr

/-- The fields of an EC2 `types.RouteTable` that `getRoute` reads. -/
structure RouteTable where
  VpcId : Option String
  RouteTableId : Option String
  Routes : List Route
deriving DecidableEq, Repr

/-- The field of `ec2.DescribeRouteTablesOutput` that `getRoute` reads. -/
structure DescribeRouteTablesOutput where
  RouteTables : List RouteTable
deriving DecidableEq, Repr

/-- The pair `(resp, err)` returned by `paginator.NextPage`: `none` is a call
that returned an error, `some resp` one that returned the page `resp`. -/
abbrev PageResult := Option DescribeRouteTablesOutput

/-- The route-table collaborator: for an account and a region, the results of
the successive `NextPage` calls of one `DescribeRouteTablesPaginator`; the
loop `for paginator.HasMorePages()` runs through this list, and stops at the
first error. A paginator always makes its first call, so the lists of a real
collaborator are not empty. -/
abbrev Backend := String → String → List PageResult

/-! ## `strings.Contains` -/

/-- Whether the characters `s` start with the characters `p`. -/
def startsWith : List Char → List Char → Bool
  | _, [] => true
  | [], _ :: _ => false
  | c :: cs, d :: ds => c == d && startsWith cs ds

/-- Whether `sub` occurs in `s` at some position. -/
def containsChars (sub : List Char) : List Char → Bool
  | [] => startsWith [] sub
  | c :: cs => startsWith (c :: cs) sub || containsChars sub cs

/-- Go `strings.Contains(s, substr)`. -/
def stringsContains (s substr : String) : Bool :=
  containsChars substr.data s.data

/-! ## Control flow of a goroutine body -/

/-- How a loop body stopped: it fell through to the next iteration, it ran
`return`, or it hit a nil pointer dereference (a run-time panic). -/
inductive Ctl where
  | next
  | returned
  | panicked
deriving DecidableEq, Repr

/-- A Go `for _, x := range xs { body }` whose body sends records and may
return or panic: the records sent, in order, and how the loop stopped. -/
def forRange {α β : Type} (body : α → List β × Ctl) : List α → List β × Ctl
  | [] => ([], Ctl.next)
  | x :: xs =>
    match body x with
    | (sent, Ctl.next) => (sent ++ (forRange body xs).1, (forRange body xs).2)
    | (sent, c) => (sent, c)

/-! ## `getRoute` -/

/-- The record sent at `main.go:134` when a page listing fails. -/
def sentinel (account : String) : InternetRoute :=
  { Account := account, Region := "", Vpc := none, RouteTable := none,
    DestinationCidr := none, InternetGateway := none }

/-- The record sent at `main.go:149-156` for a matching route. -/
def finding (account region : String) (routeTable : RouteTable) (r : Route) : InternetRoute :=
  { Account := account, Region := region, Vpc := routeTable.VpcId,
    RouteTable := routeTable.RouteTableId, DestinationCidr := r.DestinationCidrBlock,
    InternetGateway := r.GatewayId }

/-- The condition of `main.go:141`:
`r.GatewayId != nil && strings.Contains(*r.GatewayId, "igw-")`. -/
def matchesIgw (r : Route) : Bool :=
  match r.GatewayId with
  | none => false
  | some gw => stringsContains gw "igw-"

/-- The body of `for _, r := range routeTable.Routes` (`main.go:140-158`).
The `fmt.Println` of line 142 evaluates `*r.DestinationCidrBlock` before the
send of line 149, so a matching route without a destination CIDR panics and
sends nothing. -/
def routeBody (account region : String) (routeTable : RouteTable) (r : Route) :
    List InternetRoute × Ctl :=
  if matchesIgw r then
    match r.DestinationCidrBlock with
    | none => ([], Ctl.panicked)
    | some _ => ([finding account region routeTable r], Ctl.next)
  else ([], Ctl.next)

/-- The body of `for _, routeTable := range resp.RouteTables` (`main.go:139-159`). -/
def tableBody (account region : String) (routeTable : RouteTable) : List InternetRoute × Ctl :=
  forRange (routeBody account region routeTable) routeTable.Routes

/-- The body of `for paginator.HasMorePages()` (`main.go:130-160`): one
`NextPage` call; on an error the sentinel is sent, the channel is closed and
the goroutine returns. -/
def pageBody (account region : String) (page : PageResult) : List InternetRoute × Ctl :=
  match page with
  | none => ([sentinel account], Ctl.returned)
  | some resp => forRange (tableBody account region) resp.RouteTables

/-- The body of `for _, region := range regions` (`main.go:121-161`). -/
def regionBody (backend : Backend) (account region : String) : List InternetRoute × Ctl :=
  forRange (pageBody account region) (backend account region)

/-- The body of `for account := range in` (`main.go:117-163`): the scan of one
account over the region list. -/
def accountBody (backend : Backend) (regions : List String) (account : String) :
    List InternetRoute × Ctl :=
  forRange (regionBody backend account) regions

/-- The goroutine of `getRoute` run on the accounts it takes from `in`, in the
order it takes them: the records it sends on `out` and how it stopped. -/
def getRoute (backend : Backend) (regions : List String) (accounts : List String) :
    List InternetRoute × Ctl :=
  forRange (accountBody backend regions) accounts

/-! ## The filter as the specification words it -/

/-- Spec §4.3 step 2b: the gateway identifier is present and contains the
substring `igw-` at some position. -/
def specIsIgw (r : Route) : Bool :=
  match r.GatewayId with
  | none => false
  | some gw => decide ("igw-".data <:+: gw.data)

/-- Spec §4.3 step 2b: one record per matching route of a route table, with
the account, the region, and the fields of the table and of the route. -/
def specTableFindings (account region : String) (rt : RouteTable) : List InternetRoute :=
  (rt.Routes.filter specIsIgw).map fun r =>
    { Account := account, Region := region, Vpc := rt.VpcId, RouteTable := rt.RouteTableId,
      DestinationCidr := r.DestinationCidrBlock, InternetGateway := r.GatewayId }

/-- The findings of one page, table by table. -/
def specPageFindings (account region : String) (resp : DescribeRouteTablesOutput) :
    List InternetRoute :=
  resp.RouteTables.flatMap (specTableFindings account region)

/-- The findings of the pages in `pages` that were listed, page by page. -/
def specPagesFindings (account region : String) (pages : List PageResult) :
    List InternetRoute :=
  pages.flatMap fun page =>
    match page with
    | none => []
    | some resp => specPageFindings account region resp

/-- The findings of an account, region by region. -/
def specAccountFindings (backend : Backend) (regions : List String) (account : String) :
    List InternetRoute :=
  regions.flatMap fun region => specPagesFindings account region (backend account region)

/-! ## Concrete backends -/

/-- The scenario of spec §8: account `111111111111` has one route table with a
default route to `igw-abc123`; the listing of `222222222222` fails. -/
def scenarioBackend : Backend := fun account _ =>
  if account = "111111111111" then
    [some { RouteTables := [{
      VpcId := some "vpc-1"
      RouteTableId := some "rtb-1"
      Routes := [{ GatewayId := some "igw-abc123", DestinationCidrBlock := some "0.0.0.0/0" }] }] }]
  else [none]

/-- A page with one route table that holds the one route `r`. -/
def onePage (r : Route) : PageResult :=
  some { RouteTables := [{ VpcId := some "vpc-1", RouteTableId := some "rtb-1", Routes := [r] }] }

/-- Every region answers with one page holding one route to `igw-abc123` whose
destination is `10.0.0.0/16`. -/
def nonDefaultBackend : Backend := fun _ _ =>
  [onePage { GatewayId := some "igw-abc123", DestinationCidrBlock := some "10.0.0.0/16" }]

/-- Every region answers with one page holding one route to `igw-abc123` that
has no IPv4 destination CIDR, as a route for `::/0` has. -/
def noCidrBackend : Backend := fun _ _ =>
  [onePage { GatewayId := some "igw-abc123", DestinationCidrBlock := none }]

/-- The region `us-east-1` answers with the route of `noCidrBackend`; the
listing of every other region fails. -/
def noCidrThenFailBackend : Backend := fun _ region =>
  if region = "us-east-1" then
    [onePage { GatewayId := some "igw-abc123", DestinationCidrBlock := none }]
  else [none]

/-- The first page of every region holds a default route to `igw-abc123`; the
listing of the second page fails. -/
def secondPageFailsBackend : Backend := fun _ _ =>
  [onePage { GatewayId := some "igw-abc123", DestinationCidrBlock := some "0.0.0.0/0" }, none]

/-- The region with the empty name answers with one page holding one route
table without a VPC id and without an id of its own, with a default route to
`igw-abc123`. -/
def bareBackend : Backend := fun _ _ =>
  [some { RouteTables := [{
    VpcId := none
    RouteTableId := none
    Routes := [{ GatewayId := some "igw-abc123", DestinationCidrBlock := some "0.0.0.0/0" }] }] }]

/-- The finding of `bareBackend` in the region with the empty name: no VPC,
no route table, no region name. -/
def bareFinding : InternetRoute :=
  { Account := "111111111111", Region := "", Vpc := none, RouteTable := none,
    DestinationCidr := some "0.0.0.0/0", InternetGateway := some "igw-abc123" }

/-! ## `merge` as a transition system

`merge(cs...)` starts one `output(c)` goroutine per entry of `cs` and one
goroutine that waits for the `WaitGroup` and closes `out`. Channels are
unbuffered: a send and the matching receive are one step. The senders on the
input channels and the reader of `out` (the `for n := range merge(out...)` of
`main`) are the environment: the sender on a channel sends a list of values
and then closes the channel, or leaves it open; the reader receives until
`out` is closed. The entries of `cs` name channels, and one channel may be
named by several entries: `merge(c, c)` starts two `output` goroutines that
range over the one channel `c`, and each value sent on `c` is received by one
of them. -/

/-- An input channel with its sender. -/
structure Chan (α : Type) where
  /-- What the sender has still to send on the channel. -/
  pending : List α
  /-- Whether the sender closes the channel after its last send. -/
  closes : Bool
deriving DecidableEq, Repr

/-- One `output(c)` goroutine of `merge`. -/
structure Lane (α : Type) where
  /-- Which channel `c` it ranges over. -/
  src : Nat
  /-- The value `n` that it has received from `c` and not yet sent on `out`. -/
  held : Option α
  /-- Whether it has left `for n := range c` and run `wg.Done()`. -/
  done : Bool
deriving DecidableEq, Repr

/-- The state of `merge` and of its environment. -/
structure MergeState (α : Type) where
  chans : List (Chan α)
  /-- The `output` goroutines, one per entry of `cs`. -/
  lanes : List (Lane α)
  /-- The counter of `wg`. -/
  wg : Nat
  /-- Whether `close(out)` has run. -/
  outClosed : Bool
  /-- What the reader of `out` has received, oldest first, each value with the
  input channel it was sent on. -/
  received : List (Nat × α)
  /-- Whether a goroutine of `merge` has panicked (a send on the closed `out`,
  or a negative `WaitGroup` counter). -/
  panicked : Bool
deriving DecidableEq, Repr

/-- The steps of `merge`; the scheduler picks one at a time. -/
inductive MergeAction where
  /-- `for n := range c`: the `j`-th `output` goroutine receives the next
  value of its channel. -/
  | recv (j : Nat)
  /-- `out <- n`: the `j`-th `output` goroutine sends the value it holds and
  the reader receives it. -/
  | forward (j : Nat)
  /-- The `j`-th `output` goroutine finds its channel closed and runs `wg.Done()`. -/
  | finish (j : Nat)
  /-- `wg.Wait()` returns and `close(out)` runs. -/
  | closeOut
deriving DecidableEq, Repr

/-- One step of `merge`, `none` when the step is not enabled. A goroutine
whose channel is not among `chans` ranges over a channel nobody sends on or
closes, and stays blocked. -/
def mergeStep {α : Type} (a : MergeAction) (s : MergeState α) : Option (MergeState α) :=
  if s.panicked then none
  else
    match a with
    | MergeAction.recv j =>
      match s.lanes[j]? with
      | some { src := c, held := none, done := false } =>
        match s.chans[c]? with
        | some { pending := v :: rest, closes := cl } =>
          some { s with
            chans := s.chans.set c { pending := rest, closes := cl }
            lanes := s.lanes.set j { src := c, held := some v, done := false } }
        | _ => none
      | _ => none
    | MergeAction.forward j =>
      match s.lanes[j]? with
      | some { src := c, held := some v, done := false } =>
        if s.outClosed then some { s with panicked := true }
        else some { s with
          lanes := s.lanes.set j { src := c, held := none, done := false }
          received := s.received ++ [(c, v)] }
      | _ => none
    | MergeAction.finish j =>
      match s.lanes[j]? with
      | some { src := c, held := none, done := false } =>
        match s.chans[c]? with
        | some { pending := [], closes := true } =>
          if s.wg = 0 then some { s with panicked := true }
          else some { s with
            lanes := s.lanes.set j { src := c, held := none, done := true }
            wg := s.wg - 1 }
        | _ => none
      | _ => none
    | MergeAction.closeOut =>
      if s.wg = 0 ∧ s.outClosed = false then some { s with outClosed := true } else none

/-- The state after `wg.Add(len(cs))` and the `go` statements of `merge`.
There are `ins.length` channels; the sender on channel `c` sends the values
`ins[c].1` and then, if `ins[c].2`, closes the channel. `cs` is the argument
list of `merge`, each entry the number of a channel; the same number may occur
more than once. -/
def mergeInit {α : Type} (ins : List (List α × Bool)) (cs : List Nat) : MergeState α :=
  { chans := ins.map fun p => { pending := p.1, closes := p.2 }
    lanes := cs.map fun c => { src := c, held := none, done := false }
    wg := cs.length
    outClosed := false
    received := []
    panicked := false }

/-- An interleaving: the steps of a schedule taken one after the other, `none`
when one of them is not enabled. -/
def runMerge {α : Type} : List MergeAction → MergeState α → Option (MergeState α)
  | [], s => some s
  | a :: rest, s =>
    match mergeStep a s with
    | none => none
    | some s' => runMerge rest s'

/-- The values the reader received that were sent on channel `c`, oldest first. -/
def receivedOn {α : Type} (c : Nat) (log : List (Nat × α)) : List α :=
  (log.filter fun p => p.1 = c).map Prod.snd

/-- The values sent on channel `c`, oldest first. -/
def sentOn {α : Type} (ins : List (List α × Bool)) (c : Nat) : List α :=
  (ins.getD c ([], true)).1

/-- What the sender on channel `c` has still to send. -/
def pendingOf {α : Type} (chans : List (Chan α)) (c : Nat) : List α :=
  match chans[c]? with
  | some ch => ch.pending
  | none => []

/-- The value an `output` goroutine holds, if it ranges over channel `c`. -/
def heldFrom {α : Type} (c : Nat) (l : Lane α) : List α :=
  if l.src = c then l.held.toList else []

/-- One for an `output` goroutine that has not yet run `wg.Done()`. -/
def laneOpen {α : Type} (l : Lane α) : Nat :=
  if l.done then 0 else 1

/-- The steps left to an `output` goroutine, apart from its receives: one for
a held value, one for `wg.Done()`. -/
def laneFuel {α : Type} (l : Lane α) : Nat :=
  l.held.toList.length + laneOpen l

/-- The steps left for the values not yet received from a channel: a receive
and a send on `out` for each. -/
def chanFuel {α : Type} (ch : Chan α) : Nat :=
  2 * ch.pending.length

/-- The steps left to `merge`. -/
def mergeFuel {α : Type} (s : MergeState α) : Nat :=
  (s.chans.map chanFuel).sum + (s.lanes.map laneFuel).sum + (if s.outClosed then 0 else 1)

/-- What holds of `merge` at every point of every interleaving, when the
senders are those of `ins` and the argument list is `cs`. -/
structure MergeInv {α : Type} (ins : List (List α × Bool)) (cs : List Nat)
    (s : MergeState α) : Prop where
  srcs : s.lanes.map (fun l => l.src) = cs
  closesOf : s.chans.map (fun ch => ch.closes) = ins.map Prod.snd
  multi : ∀ (c : Nat), (receivedOn c s.received : Multiset α)
      + (s.lanes.map fun l => (heldFrom c l : Multiset α)).sum
      + (pendingOf s.chans c : Multiset α)
    = (sentOn ins c : Multiset α)
  order : ∀ (j : Nat) (l : Lane α), s.lanes[j]? = some l → cs.count l.src ≤ 1 →
    receivedOn l.src s.received ++ l.held.toList ++ pendingOf s.chans l.src = sentOn ins l.src
  doneEmpty : ∀ (j : Nat) (l : Lane α), s.lanes[j]? = some l → l.done = true →
    l.held = none ∧ pendingOf s.chans l.src = []
  wgCount : s.wg = (s.lanes.map laneOpen).sum
  closed : s.outClosed = true → s.wg = 0
  noPanic : s.panicked = false
  tags : ∀ p ∈ s.received, p.1 ∈ cs

/-! ## The report step of `main` -/

/-- The collaborators of `main.go:90-94`. -/
structure ReportEnv where
  /-- The pair `(savedRoutes, err)` of `json.MarshalIndent(allRoutes, "", "\t")`. -/
  marshalIndent : List InternetRoute → String × Option String
  /-- The error of `ioutil.WriteFile(name, data, 0644)`, `none` when the write succeeded. -/
  writeFile : String → String → Option String

/-- What `main` does after the merge loop. -/
structure ReportLog where
  /-- The lines printed on standard output. -/
  printed : List String
  /-- The calls of `ioutil.WriteFile`: file name and data. -/
  writes : List (String × String)
deriving DecidableEq, Repr

/-- The lines `main.go:90-94`: the marshalling error is printed; the value
returned by `ioutil.WriteFile` is bound to nothing. -/
def report (env : ReportEnv) (allRoutes : List InternetRoute) : ReportLog :=
  let saved := env.marshalIndent allRoutes
  let printed :=
    match saved.2 with
    | some err => ["ERROR: Unable to marshal internet routes to JSON:  " ++ err]
    | none => []
  let _ := env.writeFile "routes.json" saved.1
  { printed := printed, writes := [("routes.json", saved.1)] }

/-- The collaborators of the report step where `json.MarshalIndent` answers
`marshal` and every `ioutil.WriteFile` returns `writeError`. -/
def diskEnv (marshal : List InternetRoute → String × Option String)
    (writeError : Option String) : ReportEnv :=
  { marshalIndent := marshal
    writeFile := fun _ _ => writeError }

/-! ## The pipeline of `main` as a transition system

`main` starts `gen`, one `getRoute` goroutine per account, all receiving from
the one channel `in`, and `merge` over their output channels; it then reads
`merge`'s channel into `allRoutes`. A panic in any goroutine ends the process.
A worker that has received an account scans it against the fixed backend, so
what it sends and how the scan stops is `accountBody` of that account. -/

/-- Where the goroutine of one `getRoute` call stands. -/
inductive WorkerPc where
  /-- At `for account := range in`, ready to receive. -/
  | idle
  /-- Scanning an account: the records it still sends on `out`, and how the
  scan stops once they are sent. -/
  | scanning (queue : List InternetRoute) (stop : Ctl)
  /-- Returned, after `close(out)`. -/
  | exited
deriving DecidableEq, Repr

/-- What a goroutine did on a channel. -/
inductive ChanEvent where
  | sent (n : InternetRoute)
  | closed
deriving DecidableEq, Repr

/-- The `i`-th `getRoute` goroutine, its channel `out[i]` and the
`output(out[i])` goroutine of `merge`. -/
structure Stage where
  pc : WorkerPc
  /-- What the worker did on its channel so far, oldest first. -/
  events : List ChanEvent
  /-- The value `output` has received from the worker and not yet sent on. -/
  held : Option InternetRoute
  /-- Whether `output` has run `wg.Done()`. -/
  done : Bool
deriving DecidableEq, Repr

/-- The state of the pipeline. -/
structure Pipeline where
  /-- `gen`: the accounts not yet sent on `in`. -/
  backlog : List String
  /-- Whether `gen` has run `close(out)` on the channel `in`. -/
  inClosed : Bool
  stages : List Stage
  /-- The counter of `merge`'s `wg`. -/
  wg : Nat
  /-- Whether `merge`'s channel is closed. -/
  outClosed : Bool
  /-- The slice `allRoutes` of `main`. -/
  allRoutes : List InternetRoute
  /-- Whether a goroutine has panicked. -/
  crashed : Bool
  /-- Which worker received which account, oldest first. -/
  taken : List (Nat × String)
  /-- What the goroutines of `merge` did on `merge`'s channel, oldest first. -/
  outEvents : List ChanEvent
deriving DecidableEq, Repr

/-- The steps of the pipeline; the scheduler picks one at a time. -/
inductive PipeAction where
  /-- `out <- account` in `gen` meets `for account := range in` in worker `i`. -/
  | take (i : Nat)
  /-- `gen` has sent every account and closes `in`. -/
  | closeIn
  /-- Worker `i` finds `in` closed, leaves its loop and runs `close(out)` (`main.go:164`). -/
  | drained (i : Nat)
  /-- Worker `i` sends its next record; `output(out[i])` receives it. -/
  | send (i : Nat)
  /-- Worker `i` has scanned every region of its account and loops. -/
  | nextAccount (i : Nat)
  /-- Worker `i` has sent the sentinel; `close(out)` and `return` (`main.go:135-136`). -/
  | failReturn (i : Nat)
  /-- Worker `i` dereferences the nil `DestinationCidrBlock` (`main.go:145`). -/
  | panic (i : Nat)
  /-- `output(out[i])` sends the value it holds; `main` appends it to `allRoutes`. -/
  | forward (i : Nat)
  /-- `output(out[i])` finds `out[i]` closed and runs `wg.Done()`. -/
  | finish (i : Nat)
  /-- `wg.Wait()` returns and `merge`'s channel is closed. -/
  | closeOut
deriving DecidableEq, Repr

/-- One step of the pipeline, `none` when the step is not enabled. -/
def pipeStep (backend : Backend) (regions : List String) (a : PipeAction) (s : Pipeline) :
    Option Pipeline :=
  if s.crashed then none
  else
    match a with
    | PipeAction.take i =>
      match s.backlog, s.stages[i]? with
      | account :: rest, some { pc := WorkerPc.idle, events := ev, held := h, done := d } =>
        some { s with
          backlog := rest
          stages := s.stages.set i
            { pc := WorkerPc.scanning (accountBody backend regions account).1
                (accountBody backend regions account).2
              events := ev, held := h, done := d }
          taken := s.taken ++ [(i, account)] }
      | _, _ => none
    | PipeAction.closeIn =>
      if s.backlog = [] ∧ s.inClosed = false then some { s with inClosed := true } else none
    | PipeAction.drained i =>
      match s.stages[i]? with
      | some { pc := WorkerPc.idle, events := ev, held := h, done := d } =>
        if s.inClosed then
          some { s with
            stages := s.stages.set i
              { pc := WorkerPc.exited, events := ev ++ [ChanEvent.closed], held := h, done := d } }
        else none
      | _ => none
    | PipeAction.send i =>
      match s.stages[i]? with
      | some { pc := WorkerPc.scanning (n :: q) c, events := ev, held := none, done := false } =>
        some { s with
          stages := s.stages.set i
            { pc := WorkerPc.scanning q c, events := ev ++ [ChanEvent.sent n], held := some n,
              done := false } }
      | _ => none
    | PipeAction.nextAccount i =>
      match s.stages[i]? with
      | some { pc := WorkerPc.scanning [] Ctl.next, events := ev, held := h, done := d } =>
        some { s with
          stages := s.stages.set i { pc := WorkerPc.idle, events := ev, held := h, done := d } }
      | _ => none
    | PipeAction.failReturn i =>
      match s.stages[i]? with
      | some { pc := WorkerPc.scanning [] Ctl.returned, events := ev, held := h, done := d } =>
        some { s with
          stages := s.stages.set i
            { pc := WorkerPc.exited, events := ev ++ [ChanEvent.closed], held := h, done := d } }
      | _ => none
    | PipeAction.panic i =>
      match s.stages[i]? with
      | some { pc := WorkerPc.scanning [] Ctl.panicked, events := _, held := _, done := _ } =>
        some { s with crashed := true }
      | _ => none
    | PipeAction.forward i =>
      match s.stages[i]? with
      | some { pc := pc, events := ev, held := some n, done := false } =>
        if s.outClosed then some { s with crashed := true }
        else some { s with
          stages := s.stages.set i { pc := pc, events := ev, held := none, done := false }
          allRoutes := s.allRoutes ++ [n]
          outEvents := s.outEvents ++ [ChanEvent.sent n] }
      | _ => none
    | PipeAction.finish i =>
      match s.stages[i]? with
      | some { pc := WorkerPc.exited, events := ev, held := none, done := false } =>
        if s.wg = 0 then some { s with crashed := true }
        else some { s with
          stages := s.stages.set i
            { pc := WorkerPc.exited, events := ev, held := none, done := true }
          wg := s.wg - 1 }
      | _ => none
    | PipeAction.closeOut =>
      if s.wg = 0 ∧ s.outClosed = false then
        some { s with outClosed := true, outEvents := s.outEvents ++ [ChanEvent.closed] }
      else none

/-- A worker that `getRoute(in)` has just started, with its channel. -/
def newStage : Stage :=
  { pc := WorkerPc.idle, events := [], held := none, done := false }

/-- The loop `for range accounts { c := getRoute(in); out = append(out, c) }`
of `main.go:78-82`: the slice `out`. -/
def startWorkers (accounts : List String) : List Stage :=
  accounts.foldl (fun out _ => out ++ [newStage]) []

/-- The state after `main.go:75-86`: `gen` holds every account, the workers
are started, and `merge(out...)` has run `wg.Add(len(cs))`. A step that a
goroutine takes before `main` has started the others is a step from this
state too. -/
def pipeInit (accounts : List String) : Pipeline :=
  { backlog := accounts
    inClosed := false
    stages := startWorkers accounts
    wg := (startWorkers accounts).length
    outClosed := false
    allRoutes := []
    crashed := false
    taken := []
    outEvents := [] }

/-- An interleaving of the pipeline: the steps of a schedule taken one after
the other, `none` when one of them is not enabled. -/
def runPipe (backend : Backend) (regions : List String) :
    List PipeAction → Pipeline → Option Pipeline
  | [], s => some s
  | a :: rest, s =>
    match pipeStep backend regions a s with
    | none => none
    | some s' => runPipe backend regions rest s'

/-- One for a stage whose `output` goroutine has not yet run `wg.Done()`. -/
def stageOpen (st : Stage) : Nat :=
  if st.done then 0 else 1

/-- One for a worker that waits at `for account := range in`. -/
def pcIdle : WorkerPc → Nat
  | WorkerPc.idle => 1
  | _ => 0

/-- The records a worker has still to send for the account it scans. -/
def pcQueue : WorkerPc → List InternetRoute
  | WorkerPc.scanning queue _ => queue
  | _ => []

/-- The records of a stage that have not reached `allRoutes` yet. -/
def stageLoad (st : Stage) : List InternetRoute :=
  st.held.toList ++ pcQueue st.pc

/-- One for a scan that stops with a panic. -/
def ctlFault (c : Ctl) : Nat :=
  if c = Ctl.panicked then 1 else 0

/-- One for a worker whose scan will stop with a panic. -/
def pcFault : WorkerPc → Nat
  | WorkerPc.scanning _ stop => ctlFault stop
  | _ => 0

/-- The number of accounts of a list whose scan stops with a panic. -/
def faultsOf (backend : Backend) (regions : List String) (accounts : List String) : Nat :=
  (accounts.map fun account => ctlFault (accountBody backend regions account).2).sum

/-- The steps left to a worker before it takes or leaves. -/
def pcFuel : WorkerPc → Nat
  | WorkerPc.idle => 1
  | WorkerPc.scanning queue _ => 2 * queue.length + 2
  | WorkerPc.exited => 0

/-- The steps left to a stage. -/
def stageFuel (st : Stage) : Nat :=
  pcFuel st.pc + st.held.toList.length + stageOpen st

/-- The steps left to the pipeline. -/
def pipeFuel (backend : Backend) (regions : List String) (s : Pipeline) : Nat :=
  (s.backlog.map fun account => 2 * (accountBody backend regions account).1.length + 2).sum
    + (if s.inClosed then 0 else 1)
    + (s.stages.map stageFuel).sum
    + (if s.outClosed then 0 else 1)
    + (if s.crashed then 0 else 1)

/-- The records of a list of accounts, as a multiset. -/
def recordsOf (backend : Backend) (regions : List String) (accounts : List String) :
    Multiset InternetRoute :=
  (accounts.map fun account => ((accountBody backend regions account).1 : Multiset InternetRoute)).sum

/-- What holds of one stage at every point of every interleaving. -/
structure StageOk (backend : Backend) (regions accounts : List String) (st : Stage) : Prop where
  live : st.pc ≠ WorkerPc.exited →
    ∃ recs : List InternetRoute, st.events = recs.map ChanEvent.sent
  closedOnce : st.pc = WorkerPc.exited →
    ∃ recs : List InternetRoute, st.events = recs.map ChanEvent.sent ++ [ChanEvent.closed]
  doneAfter : st.done = true → st.pc = WorkerPc.exited ∧ st.held = none
  scanOf : ∀ (q : List InternetRoute) (c : Ctl), st.pc = WorkerPc.scanning q c →
    ∃ account ∈ accounts, c = (accountBody backend regions account).2

/-- What holds of the pipeline at every point of every interleaving. -/
structure PipeInv (backend : Backend) (regions accounts : List String) (s : Pipeline) :
    Prop where
  len : s.stages.length = accounts.length
  stageOk : ∀ (i : Nat) (st : Stage), s.stages[i]? = some st →
    StageOk backend regions accounts st
  inClosedEmpty : s.inClosed = true → s.backlog = []
  wgCount : s.wg = (s.stages.map stageOpen).sum
  closed : s.outClosed = true → s.wg = 0
  idle : s.inClosed = false → s.backlog.length ≤ (s.stages.map fun st => pcIdle st.pc).sum
  crashedBy : s.crashed = true →
    ∃ (i : Nat) (st : Stage), s.stages[i]? = some st
      ∧ st.pc = WorkerPc.scanning [] Ctl.panicked
  takenAll : s.taken.map Prod.snd ++ s.backlog = accounts
  outLog : s.outEvents
    = s.allRoutes.map ChanEvent.sent ++ (if s.outClosed then [ChanEvent.closed] else [])
  faults : faultsOf backend regions s.backlog + (s.stages.map fun st => pcFault st.pc).sum
    = faultsOf backend regions accounts
  routes : (s.allRoutes : Multiset InternetRoute)
      + (s.stages.map fun st => (stageLoad st : Multiset InternetRoute)).sum
      + recordsOf backend regions s.backlog
    = recordsOf backend regions accounts

/-! ## Concrete runs -/

/-- The finding of the spec's scenario. -/
def scenarioFinding : InternetRoute :=
  { Account := "111111111111", Region := "us-east-1", Vpc := some "vpc-1",
    RouteTable := some "rtb-1", DestinationCidr := some "0.0.0.0/0",
    InternetGateway := some "igw-abc123" }

/-- One interleaving of the spec's scenario, run to its end: worker 1 takes
the first account, worker 0 the second. -/
def scenarioSchedule : List PipeAction :=
  [PipeAction.take 1, PipeAction.take 0, PipeAction.send 0, PipeAction.send 1,
   PipeAction.forward 1, PipeAction.nextAccount 1, PipeAction.forward 0,
   PipeAction.failReturn 0, PipeAction.closeIn, PipeAction.drained 1, PipeAction.finish 0,
   PipeAction.finish 1, PipeAction.closeOut]

/-- The state at the end of `scenarioSchedule`. -/
def scenarioFinal : Pipeline :=
  { backlog := []
    inClosed := true
    stages :=
      [{ pc := WorkerPc.exited
         events := [ChanEvent.sent (sentinel "222222222222"), ChanEvent.closed]
         held := none
         done := true },
       { pc := WorkerPc.exited
         events := [ChanEvent.sent scenarioFinding, ChanEvent.closed]
         held := none
         done := true }]
    wg := 0
    outClosed := true
    allRoutes := [scenarioFinding, sentinel "222222222222"]
    crashed := false
    taken := [(1, "111111111111"), (0, "222222222222")]
    outEvents := [ChanEvent.sent scenarioFinding, ChanEvent.sent (sentinel "222222222222"),
      ChanEvent.closed] }

/-- The state after the one worker of a one-account run took the account and
panicked on its first route. -/
def crashedState : Pipeline :=
  { backlog := []
    inClosed := false
    stages := [{ pc := WorkerPc.scanning [] Ctl.panicked, events := [], held := none,
                 done := false }]
    wg := 1
    outClosed := false
    allRoutes := []
    crashed := true
    taken := [(0, "111111111111")]
    outEvents := [] }

/-- One interleaving of the one-account run against `bareBackend`, up to the
point where `main` has appended the finding to `allRoutes`. -/
def bareSchedule : List PipeAction :=
  [PipeAction.take 0, PipeAction.send 0, PipeAction.forward 0]

/-- The state at the end of `bareSchedule`. -/
def bareState : Pipeline :=
  { backlog := []
    inClosed := false
    stages := [{ pc := WorkerPc.scanning [] Ctl.next, events := [ChanEvent.sent bareFinding],
                 held := none, done := false }]
    wg := 1
    outClosed := false
    allRoutes := [bareFinding]
    crashed := false
    taken := [(0, "111111111111")]
    outEvents := [ChanEvent.sent bareFinding] }

/-- Two workers of the spec's scenario, one sending a finding and one a
sentinel, each closing its channel. -/
def twoSenders : List (List InternetRoute × Bool) :=
  [([scenarioFinding], true), ([sentinel "222222222222"], true)]

/-- One interleaving of `merge` over the two channels of `twoSenders`, run to
its end. -/
def twoSchedule : List MergeAction :=
  [MergeAction.recv 0, MergeAction.recv 1, MergeAction.forward 1, MergeAction.finish 1,
   MergeAction.forward 0, MergeAction.finish 0, MergeAction.closeOut]

/-- The state at the end of `twoSchedule`. -/
def twoFinal : MergeState InternetRoute :=
  { chans := [{ pending := [], closes := true }, { pending := [], closes := true }]
    lanes := [{ src := 0, held := none, done := true }, { src := 1, held := none, done := true }]
    wg := 0
    outClosed := true
    received := [(1, sentinel "222222222222"), (0, scenarioFinding)]
    panicked := false }

/-- One worker that sends a finding and then a sentinel and closes its channel. -/
def oneSender : List (List InternetRoute × Bool) :=
  [([scenarioFinding, sentinel "111111111111"], true)]

/-- One interleaving of `merge(c, c)` over the channel `c` of `oneSender`, run
to its end: the first `output` goroutine receives the finding, the second the
sentinel, and the second sends on `out` first. -/
def overtakeSchedule : List MergeAction :=
  [MergeAction.recv 0, MergeAction.recv 1, MergeAction.forward 1, MergeAction.forward 0,
   MergeAction.finish 0, MergeAction.finish 1, MergeAction.closeOut]

/-- The state at the end of `overtakeSchedule`. -/
def overtakeFinal : MergeState InternetRoute :=
  { chans := [{ pending := [], closes := true }]
    lanes := [{ src := 0, held := none, done := true }, { src := 0, held := none, done := true }]
    wg := 0
    outClosed := true
    received := [(0, sentinel "111111111111"), (0, scenarioFinding)]
    panicked := false }

/-! ## Theorems -/

/-! ### Lists whose entry `i` changes -/

theorem lt_length_of_getElem? {β : Type} {l : List β} {i : Nat} {a : β}
    (h : l[i]? = some a) : i < l.length := by
  by_contra hc
  rw [List.getElem?_eq_none (by omega)] at h
  exact absurd h (by simp)

/-- The entries after entry `i` went from `a` to `b`. -/
theorem getElem?_set_lane {β : Type} {l : List β} {i j : Nat} {a b c : β}
    (hl : l[i]? = some a) (hj : (l.set i b)[j]? = some c) :
    (j = i ∧ c = b) ∨ (j ≠ i ∧ l[j]? = some c) := by
  have hi := lt_length_of_getElem? hl
  rw [List.getElem?_set] at hj
  by_cases hij : i = j
  · subst hij
    simp [hi] at hj
    exact Or.inl ⟨rfl, hj.symm⟩
  · simp [hij] at hj
    exact Or.inr ⟨fun h => hij h.symm, hj⟩

theorem forall_getElem?_set {β : Type} {P : β → Prop} {l : List β} {i : Nat} {b : β}
    (hl : ∀ (j : Nat) (x : β), l[j]? = some x → P x) (hb : P b) :
    ∀ (j : Nat) (x : β), (l.set i b)[j]? = some x → P x := by
  intro j x hj
  rw [List.getElem?_set] at hj
  by_cases hij : i = j
  · subst hij
    by_cases hi : i < l.length
    · simp [hi] at hj
      subst hj
      exact hb
    · simp [hi] at hj
  · simp [hij] at hj
    exact hl j x hj

theorem getElem?_replicate_some {β : Type} {n i : Nat} {a b : β}
    (h : (List.replicate n a)[i]? = some b) : b = a := by
  have hm : b ∈ List.replicate n a := List.mem_iff_getElem?.2 ⟨i, h⟩
  exact (List.mem_replicate.1 hm).2

theorem sum_map_set_add {β M : Type} [AddCommMonoid M] (f : β → M) (l : List β) (i : Nat)
    (a b : β) (h : l[i]? = some a) :
    ((l.set i b).map f).sum + f a = (l.map f).sum + f b := by
  induction l generalizing i with
  | nil => simp at h
  | cons x xs ih =>
    cases i with
    | zero =>
      simp at h
      subst h
      simp only [List.set, List.map_cons, List.sum_cons]
      abel
    | succ j =>
      simp at h
      have := ih j h
      simp only [List.set, List.map_cons, List.sum_cons]
      rw [add_assoc, this, add_assoc]

theorem sum_map_set {β : Type} (f : β → Nat) (l : List β) (i : Nat) (a b : β)
    (h : l[i]? = some a) : ((l.set i b).map f).sum + f a = (l.map f).sum + f b :=
  sum_map_set_add f l i a b h

theorem le_sum_map_of_getElem? {β : Type} (f : β → Nat) (l : List β) (i : Nat) (a : β)
    (h : l[i]? = some a) : f a ≤ (l.map f).sum := by
  induction l generalizing i with
  | nil => simp at h
  | cons x xs ih =>
    cases i with
    | zero =>
      simp at h
      subst h
      simp
    | succ j =>
      simp at h
      have := ih j h
      simp only [List.map_cons, List.sum_cons]
      omega

theorem sum_map_eq_zero_add {β M : Type} [AddCommMonoid M] (f : β → M) (l : List β)
    (h : ∀ x ∈ l, f x = 0) : (l.map f).sum = 0 := by
  induction l with
  | nil => rfl
  | cons x xs ih =>
    simp only [List.map_cons, List.sum_cons]
    rw [h x (List.mem_cons_self _ _), ih (fun y hy => h y (List.mem_cons_of_mem _ hy)),
      add_zero]

theorem sum_map_eq_zero {β : Type} (f : β → Nat) (l : List β) (h : ∀ x ∈ l, f x = 0) :
    (l.map f).sum = 0 :=
  sum_map_eq_zero_add f l h

/-- Replacing an entry by one with the same image leaves the images as they are. -/
theorem map_set_same {β γ : Type} (f : β → γ) (l : List β) (i : Nat) (a b : β)
    (h : l[i]? = some a) (hf : f a = f b) : (l.set i b).map f = l.map f := by
  induction l generalizing i with
  | nil => simp at h
  | cons x xs ih =>
    cases i with
    | zero =>
      simp at h
      subst h
      simp [List.set, hf]
    | succ j =>
      simp at h
      simp only [List.set, List.map_cons, ih j h]

/-- The bookkeeping of values when one entry changes: `X` and `Y` are the
loads of the entry before and after. -/
theorem records_step {M : Type} [AddCommMonoid M] [IsRightCancelAdd M]
    {R R' S S' B B' X Y T : M}
    (hload : S' + X = S + Y) (old : R + S + B = T) (hbal : R' + Y + B' = R + X + B) :
    R' + S' + B' = T := by
  apply add_right_cancel (b := X)
  calc R' + S' + B' + X = R' + (S' + X) + B' := by abel
    _ = R' + (S + Y) + B' := by rw [hload]
    _ = (R' + Y + B') + S := by abel
    _ = (R + X + B) + S := by rw [hbal]
    _ = (R + S + B) + X := by abel
    _ = T + X := by rw [old]

theorem startsWith_iff (s p : List Char) : startsWith s p = true ↔ p <+: s := by
  induction p generalizing s with
  | nil => simp [startsWith]
  | cons d ds ih =>
    cases s with
    | nil => simp [startsWith]
    | cons c cs =>
      simp [startsWith, ih, List.cons_prefix_cons]
      intro _
      exact eq_comm

theorem containsChars_iff (sub s : List Char) : containsChars sub s = true ↔ sub <:+: s := by
  induction s with
  | nil =>
    simp [containsChars, startsWith_iff]
  | cons c cs ih =>
    simp only [containsChars, Bool.or_eq_true, startsWith_iff, ih]
    rw [List.infix_cons_iff]

theorem forRange_all_next {α β : Type} (body : α → List β × Ctl) (xs : List α)
    (h : ∀ x ∈ xs, (body x).2 = Ctl.next) :
    forRange body xs = (xs.flatMap fun x => (body x).1, Ctl.next) := by
  induction xs with
  | nil => rfl
  | cons x xs ih =>
    have hx := h x (List.mem_cons_self _ _)
    have ih2 := ih (fun y hy => h y (List.mem_cons_of_mem _ hy))
    rcases hb : body x with ⟨sent, c⟩
    rw [hb] at hx
    simp only at hx
    subst hx
    simp [forRange, hb, ih2]

theorem forRange_stop {α β : Type} (body : α → List β × Ctl) (pre : List α) (x : α)
    (post : List α) (hpre : ∀ y ∈ pre, (body y).2 = Ctl.next) (hx : (body x).2 ≠ Ctl.next) :
    forRange body (pre ++ x :: post)
      = ((pre.flatMap fun y => (body y).1) ++ (body x).1, (body x).2) := by
  induction pre with
  | nil =>
    rcases hb : body x with ⟨sent, c⟩
    rw [hb] at hx
    cases c <;> simp_all [forRange]
  | cons y ys ih =>
    have hy := hpre y (List.mem_cons_self _ _)
    have ih2 := ih (fun z hz => hpre z (List.mem_cons_of_mem _ hz))
    rcases hb : body y with ⟨sent, c⟩
    rw [hb] at hy
    simp only at hy
    subst hy
    simp [forRange, hb, ih2]

theorem forRange_mem {α β : Type} (body : α → List β × Ctl) (xs : List α) (b : β)
    (hb : b ∈ (forRange body xs).1) : ∃ x ∈ xs, b ∈ (body x).1 := by
  induction xs with
  | nil => simp [forRange] at hb
  | cons x xs ih =>
    rcases hx : body x with ⟨sent, c⟩
    cases c <;> simp [forRange, hx] at hb
    · rcases hb with hb | hb
      · exact ⟨x, List.mem_cons_self _ _, by simp [hx, hb]⟩
      · obtain ⟨y, hy, hby⟩ := ih hb
        exact ⟨y, List.mem_cons_of_mem _ hy, hby⟩
    · exact ⟨x, List.mem_cons_self _ _, by simp [hx, hb]⟩
    · exact ⟨x, List.mem_cons_self _ _, by simp [hx, hb]⟩

/-- Records sent by a loop that stops at `x` come from `pre` or from `x`. -/
theorem forRange_mem_stop {α β : Type} (body : α → List β × Ctl) (pre : List α) (x : α)
    (post : List α) (hx : (body x).2 ≠ Ctl.next) (b : β)
    (hb : b ∈ (forRange body (pre ++ x :: post)).1) :
    (∃ y ∈ pre, b ∈ (body y).1) ∨ b ∈ (body x).1 := by
  induction pre with
  | nil =>
    right
    rcases hbx : body x with ⟨sent, c⟩
    rw [hbx] at hx
    cases c <;> simp_all [forRange]
  | cons y ys ih =>
    rcases hy : body y with ⟨sent, c⟩
    cases c <;> simp [forRange, hy] at hb
    · rcases hb with hb | hb
      · exact Or.inl ⟨y, List.mem_cons_self _ _, by simp [hy, hb]⟩
      · rcases ih hb with ⟨z, hz, hbz⟩ | h
        · exact Or.inl ⟨z, List.mem_cons_of_mem _ hz, hbz⟩
        · exact Or.inr h
    · exact Or.inl ⟨y, List.mem_cons_self _ _, by simp [hy, hb]⟩
    · exact Or.inl ⟨y, List.mem_cons_self _ _, by simp [hy, hb]⟩

theorem matchesIgw_eq_spec (r : Route) : matchesIgw r = specIsIgw r := by
  unfold matchesIgw specIsIgw
  cases r.GatewayId with
  | none => rfl
  | some gw =>
    simp only [stringsContains]
    rw [Bool.eq_iff_iff, containsChars_iff]
    simp

theorem flatMap_ite_singleton {α β : Type} (p : α → Bool) (f : α → β) (xs : List α) :
    (xs.flatMap fun x => if p x then [f x] else []) = (xs.filter p).map f := by
  induction xs with
  | nil => rfl
  | cons x xs ih =>
    simp only [List.flatMap_cons, ih, List.filter_cons]
    cases p x <;> simp

/-- A route with a destination CIDR never stops the route loop. -/
theorem routeBody_of_cidr (account region : String) (rt : RouteTable) (r : Route)
    (h : r.DestinationCidrBlock ≠ none) :
    routeBody account region rt r
      = (if specIsIgw r then [finding account region rt r] else [], Ctl.next) := by
  unfold routeBody
  rw [matchesIgw_eq_spec]
  cases hm : specIsIgw r
  · simp
  · cases hd : r.DestinationCidrBlock with
    | none => exact absurd hd h
    | some d => simp

theorem tableBody_of_cidr (account region : String) (rt : RouteTable)
    (h : ∀ r ∈ rt.Routes, r.DestinationCidrBlock ≠ none) :
    tableBody account region rt = (specTableFindings account region rt, Ctl.next) := by
  unfold tableBody
  rw [forRange_all_next]
  · congr 1
    rw [List.flatMap_congr (g := fun r => if specIsIgw r then [finding account region rt r] else [])]
    · rw [flatMap_ite_singleton]
      rfl
    · intro r hr
      rw [routeBody_of_cidr _ _ _ _ (h r hr)]
  · intro r hr
    rw [routeBody_of_cidr _ _ _ _ (h r hr)]

theorem pageBody_of_cidr (account region : String) (resp : DescribeRouteTablesOutput)
    (h : ∀ rt ∈ resp.RouteTables, ∀ r ∈ rt.Routes, r.DestinationCidrBlock ≠ none) :
    pageBody account region (some resp) = (specPageFindings account region resp, Ctl.next) := by
  unfold pageBody
  simp only
  rw [forRange_all_next]
  · congr 1
    unfold specPageFindings
    apply List.flatMap_congr
    intro rt hrt
    rw [tableBody_of_cidr _ _ _ (h rt hrt)]
  · intro rt hrt
    rw [tableBody_of_cidr _ _ _ (h rt hrt)]

/-- A run of listed pages whose routes carry a destination CIDR. -/
theorem forRange_pageBody_of_cidr (account region : String) (pages : List PageResult)
    (hok : ∀ page ∈ pages, page ≠ none)
    (h : ∀ resp, some resp ∈ pages → ∀ rt ∈ resp.RouteTables, ∀ r ∈ rt.Routes,
      r.DestinationCidrBlock ≠ none) :
    forRange (pageBody account region) pages
      = (specPagesFindings account region pages, Ctl.next) := by
  have key : ∀ page ∈ pages, pageBody account region page
      = ((match page with
          | none => []
          | some resp => specPageFindings account region resp), Ctl.next) := by
    intro page hp
    cases page with
    | none => exact absurd rfl (hok none hp)
    | some resp => exact pageBody_of_cidr _ _ _ (h resp hp)
  rw [forRange_all_next]
  · congr 1
    unfold specPagesFindings
    apply List.flatMap_congr
    intro page hp
    rw [key page hp]
  · intro page hp
    rw [key page hp]

theorem mem_specAccountFindings {backend : Backend} {regions : List String} {account : String}
    {rec : InternetRoute} (h : rec ∈ specAccountFindings backend regions account) :
    ∃ region ∈ regions, ∃ resp, some resp ∈ backend account region ∧
      ∃ rt ∈ resp.RouteTables, ∃ r ∈ rt.Routes, specIsIgw r = true ∧
        rec = finding account region rt r := by
  simp only [specAccountFindings, specPagesFindings, List.mem_flatMap] at h
  obtain ⟨region, hregion, page, hpage, hrec⟩ := h
  cases page with
  | none => simp at hrec
  | some resp =>
    simp only [specPageFindings, specTableFindings, List.mem_flatMap, List.mem_map,
      List.mem_filter] at hrec
    obtain ⟨rt, hrt, r, ⟨hr, hm⟩, rfl⟩ := hrec
    exact ⟨region, hregion, resp, hpage, rt, hrt, r, hr, hm, rfl⟩

/-- C5: on the success path the records sent for an account are exactly the
spec's loose substring filter, in region, page, route-table and route order;
the account loop falls through, no sentinel is sent, and an account without a
matching route sends nothing. -/
theorem accountBody_success_is_loose_filter (backend : Backend) (regions : List String)
    (account : String)
    (hok : ∀ region ∈ regions, ∀ page ∈ backend account region, page ≠ none)
    (hcidr : ∀ region ∈ regions, ∀ resp, some resp ∈ backend account region →
      ∀ rt ∈ resp.RouteTables, ∀ r ∈ rt.Routes, r.DestinationCidrBlock ≠ none) :
    accountBody backend regions account
        = (specAccountFindings backend regions account, Ctl.next)
      ∧ (∀ a, sentinel a ∉ (accountBody backend regions account).1)
      ∧ ((∀ region ∈ regions, ∀ resp, some resp ∈ backend account region →
            ∀ rt ∈ resp.RouteTables, ∀ r ∈ rt.Routes, specIsIgw r = false) →
          (accountBody backend regions account).1 = []) := by
  have key : ∀ region ∈ regions, regionBody backend account region
      = (specPagesFindings account region (backend account region), Ctl.next) := by
    intro region hregion
    exact forRange_pageBody_of_cidr _ _ _ (hok region hregion) (hcidr region hregion)
  have main : accountBody backend regions account
      = (specAccountFindings backend regions account, Ctl.next) := by
    unfold accountBody
    rw [forRange_all_next]
    · congr 1
      unfold specAccountFindings
      apply List.flatMap_congr
      intro region hregion
      rw [key region hregion]
    · intro region hregion
      rw [key region hregion]
  refine ⟨main, ?_, ?_⟩
  · intro a ha
    rw [main] at ha
    obtain ⟨region, _, resp, _, rt, _, r, _, hm, hrec⟩ := mem_specAccountFindings ha
    have hgw : (sentinel a).InternetGateway = r.GatewayId := by rw [hrec]; rfl
    unfold specIsIgw at hm
    rw [← hgw] at hm
    simp [sentinel] at hm
  · intro hnone
    rw [main]
    simp only
    cases hfs : specAccountFindings backend regions account with
    | nil => rfl
    | cons rec rest =>
      have hmem : rec ∈ specAccountFindings backend regions account := by
        rw [hfs]; exact List.mem_cons_self _ _
      obtain ⟨region, hregion, resp, hresp, rt, hrt, r, hr, hm, _⟩ :=
        mem_specAccountFindings hmem
      rw [hnone region hregion resp hresp rt hrt r hr] at hm
      exact absurd hm (by decide)

theorem forRange_stop_ne {α β : Type} (body : α → List β × Ctl) (pre : List α) (x : α)
    (post : List α) (hx : (body x).2 ≠ Ctl.next) :
    (forRange body (pre ++ x :: post)).2 ≠ Ctl.next := by
  induction pre with
  | nil =>
    rcases hbx : body x with ⟨sent, c⟩
    rw [hbx] at hx
    cases c <;> simp_all [forRange]
  | cons y ys ih =>
    rcases hy : body y with ⟨sent, c⟩
    cases c <;> simp [forRange, hy]
    exact ih

/-- What the route loop of one table can send. -/
theorem mem_tableBody {account region : String} {rt : RouteTable} {rec : InternetRoute}
    (h : rec ∈ (tableBody account region rt).1) :
    ∃ r ∈ rt.Routes, matchesIgw r = true ∧ rec = finding account region rt r := by
  obtain ⟨r, hr, hrec⟩ := forRange_mem _ _ _ h
  refine ⟨r, hr, ?_⟩
  unfold routeBody at hrec
  cases hm : matchesIgw r
  · simp [hm] at hrec
  · cases hd : r.DestinationCidrBlock with
    | none => simp [hm, hd] at hrec
    | some d =>
      simp [hm, hd] at hrec
      exact ⟨rfl, hrec⟩

/-- What one `NextPage` iteration can send. -/
theorem mem_pageBody {account region : String} {page : PageResult} {rec : InternetRoute}
    (h : rec ∈ (pageBody account region page).1) :
    (page = none ∧ rec = sentinel account) ∨
      ∃ resp, page = some resp ∧ ∃ rt ∈ resp.RouteTables, ∃ r ∈ rt.Routes,
        matchesIgw r = true ∧ rec = finding account region rt r := by
  cases page with
  | none =>
    left
    simpa [pageBody] using h
  | some resp =>
    right
    obtain ⟨rt, hrt, hrec⟩ := forRange_mem _ _ _ h
    obtain ⟨r, hr, hm, hf⟩ := mem_tableBody hrec
    exact ⟨resp, rfl, rt, hrt, r, hr, hm, hf⟩

/-- What the scan of one account can send. -/
theorem mem_accountBody {backend : Backend} {regions : List String} {account : String}
    {rec : InternetRoute} (h : rec ∈ (accountBody backend regions account).1) :
    rec = sentinel account ∨
      ∃ region ∈ regions, ∃ resp, some resp ∈ backend account region ∧
        ∃ rt ∈ resp.RouteTables, ∃ r ∈ rt.Routes,
          matchesIgw r = true ∧ rec = finding account region rt r := by
  obtain ⟨region, hregion, hrec⟩ := forRange_mem _ _ _ h
  obtain ⟨page, hpage, hrec2⟩ := forRange_mem _ _ _ hrec
  rcases mem_pageBody hrec2 with ⟨_, hs⟩ | ⟨resp, hresp, rt, hrt, r, hr, hm, hf⟩
  · exact Or.inl hs
  · subst hresp
    exact Or.inr ⟨region, hregion, resp, hpage, rt, hrt, r, hr, hm, hf⟩

theorem matchesIgw_gateway {r : Route} (h : matchesIgw r = true) :
    ∃ gw, r.GatewayId = some gw ∧ "igw-".data <:+: gw.data := by
  unfold matchesIgw at h
  cases hg : r.GatewayId with
  | none => simp [hg] at h
  | some gw =>
    rw [hg] at h
    exact ⟨gw, rfl, (containsChars_iff _ _).1 h⟩

/-- The shape of a record sent during the scan of an account: the sentinel
(region empty, every optional field absent) or a finding whose gateway is
present and contains `igw-`; it is the sentinel exactly when its gateway is
absent. -/
theorem record_shape_of_mem_accountBody {backend : Backend} {regions : List String}
    {account : String} {rec : InternetRoute}
    (hrec : rec ∈ (accountBody backend regions account).1) :
    ((rec.Region = "" ∧ rec.Vpc = none ∧ rec.RouteTable = none ∧ rec.DestinationCidr = none
        ∧ rec.InternetGateway = none)
      ∨ ∃ gw, rec.InternetGateway = some gw ∧ "igw-".data <:+: gw.data)
    ∧ (rec = sentinel rec.Account ↔ rec.InternetGateway = none) := by
  rcases mem_accountBody hrec with hs | ⟨region, _, resp, _, rt, _, r, _, hm, hf⟩
  · subst hs
    exact ⟨Or.inl ⟨rfl, rfl, rfl, rfl, rfl⟩, by simp [sentinel]⟩
  · obtain ⟨gw, hgw, hin⟩ := matchesIgw_gateway hm
    subst hf
    refine ⟨Or.inr ⟨gw, hgw, hin⟩, ?_⟩
    constructor
    · intro heq
      have : (finding account region rt r).InternetGateway = none := by rw [heq]; rfl
      exact this
    · intro hnone
      simp [finding, hgw] at hnone

/-- The partial-failure shape where no route faults: the findings of the
regions before the failing one, the findings of the pages of the failing
region listed before the failing page, then one sentinel; the goroutine
returns. -/
theorem accountBody_failure_shape (backend : Backend) (regions : List String) (account : String)
    (pre post : List String) (R2 : String) (oks : List DescribeRouteTablesOutput)
    (rest : List PageResult)
    (hsplit : regions = pre ++ R2 :: post)
    (hpre : ∀ region ∈ pre, ∀ page ∈ backend account region, page ≠ none)
    (hfail : backend account R2 = oks.map some ++ none :: rest)
    (hcidrPre : ∀ region ∈ pre, ∀ resp, some resp ∈ backend account region →
      ∀ rt ∈ resp.RouteTables, ∀ r ∈ rt.Routes, r.DestinationCidrBlock ≠ none)
    (hcidrOks : ∀ resp ∈ oks, ∀ rt ∈ resp.RouteTables, ∀ r ∈ rt.Routes,
      r.DestinationCidrBlock ≠ none) :
    accountBody backend regions account
      = (specAccountFindings backend pre account
          ++ specPagesFindings account R2 (oks.map some) ++ [sentinel account],
         Ctl.returned) := by
  have hpreBody : ∀ region ∈ pre, regionBody backend account region
      = (specPagesFindings account region (backend account region), Ctl.next) := by
    intro region hregion
    exact forRange_pageBody_of_cidr _ _ _ (hpre region hregion) (hcidrPre region hregion)
  have hoksBody : ∀ page ∈ oks.map some, pageBody account R2 page
      = ((match page with
          | none => []
          | some resp => specPageFindings account R2 resp), Ctl.next) := by
    intro page hp
    obtain ⟨resp, hresp, rfl⟩ := List.mem_map.1 hp
    exact pageBody_of_cidr _ _ _ (hcidrOks resp hresp)
  have hR2 : regionBody backend account R2
      = (specPagesFindings account R2 (oks.map some) ++ [sentinel account], Ctl.returned) := by
    unfold regionBody
    rw [hfail, forRange_stop]
    · have hnone : pageBody account R2 none = ([sentinel account], Ctl.returned) := rfl
      rw [hnone]
      congr 1
      congr 1
      unfold specPagesFindings
      apply List.flatMap_congr
      intro page hp
      exact congrArg Prod.fst (hoksBody page hp)
    · intro page hp
      rw [hoksBody page hp]
    · simp [pageBody]
  unfold accountBody
  rw [hsplit, forRange_stop]
  · rw [hR2]
    simp only [List.append_assoc]
    congr 1
    congr 1
    unfold specAccountFindings
    apply List.flatMap_congr
    intro region hregion
    rw [hpreBody region hregion]
  · intro region hregion
    rw [hpreBody region hregion]
  · rw [hR2]
    simp

/-- C7 (amended): when the listing of region `R2` fails, after the pages
`oks`, every finding sent for the account belongs to a region processed
before `R2`, or to `R2` itself, and then it comes from a page of `R2` listed
before the failing page. -/
theorem accountBody_causal_order (backend : Backend) (regions : List String) (account : String)
    (pre post : List String) (R2 : String) (oks : List DescribeRouteTablesOutput)
    (rest : List PageResult)
    (hsplit : regions = pre ++ R2 :: post)
    (hfail : backend account R2 = oks.map some ++ none :: rest)
    (rec : InternetRoute) (hrec : rec ∈ (accountBody backend regions account).1)
    (hfinding : rec ≠ sentinel account) :
    (rec.Region ∈ pre ∧ ∃ resp, some resp ∈ backend account rec.Region ∧
        ∃ rt ∈ resp.RouteTables, ∃ r ∈ rt.Routes, rec = finding account rec.Region rt r)
      ∨ (rec.Region = R2 ∧ ∃ resp ∈ oks,
        ∃ rt ∈ resp.RouteTables, ∃ r ∈ rt.Routes, rec = finding account R2 rt r) := by
  have hR2stop : (regionBody backend account R2).2 ≠ Ctl.next := by
    unfold regionBody
    rw [hfail]
    exact forRange_stop_ne _ _ _ _ (by simp [pageBody])
  unfold accountBody at hrec
  rw [hsplit] at hrec
  rcases forRange_mem_stop _ _ _ _ hR2stop _ hrec with ⟨region, hregion, hin⟩ | hin
  · left
    obtain ⟨page, hpage, hin2⟩ := forRange_mem _ _ _ hin
    rcases mem_pageBody hin2 with ⟨_, hs⟩ | ⟨resp, hresp, rt, hrt, r, hr, _, hf⟩
    · exact absurd hs hfinding
    · subst hresp
      have hreg : rec.Region = region := by rw [hf]; rfl
      rw [hreg]
      exact ⟨hregion, resp, hpage, rt, hrt, r, hr, hf⟩
  · right
    unfold regionBody at hin
    rw [hfail] at hin
    rcases forRange_mem_stop _ _ _ _ (by simp [pageBody]) _ hin with ⟨page, hpage, hin2⟩ | hin2
    · obtain ⟨resp, hresp, rfl⟩ := List.mem_map.1 hpage
      rcases mem_pageBody hin2 with ⟨hn, _⟩ | ⟨resp2, hresp2, rt, hrt, r, hr, _, hf⟩
      · exact absurd hn (by simp)
      · cases hresp2
        exact ⟨by rw [hf]; rfl, resp, hresp, rt, hrt, r, hr, hf⟩
    · simp [pageBody] at hin2
      exact absurd hin2 hfinding

/-- C5 (witness): the success theorem at the first account of the spec's
scenario. -/
theorem accountBody_success_witness :
    accountBody scenarioBackend ["us-east-1"] "111111111111"
      = ([{ Account := "111111111111", Region := "us-east-1", Vpc := some "vpc-1",
            RouteTable := some "rtb-1", DestinationCidr := some "0.0.0.0/0",
            InternetGateway := some "igw-abc123" }], Ctl.next) := by
  have h := (accountBody_success_is_loose_filter scenarioBackend ["us-east-1"] "111111111111"
    (by decide)
    (by
      intro region _ resp hresp rt hrt r hr
      simp [scenarioBackend] at hresp
      subst hresp
      simp at hrt
      subst hrt
      simp at hr
      subst hr
      simp)).1
  rw [h]
  decide

/-- C6: a route to an internet gateway whose destination is `10.0.0.0/16`,
not the default route, is reported as a finding. -/
theorem getRoute_reports_non_default_route :
    getRoute nonDefaultBackend ["us-east-1"] ["111111111111"]
      = ([{ Account := "111111111111", Region := "us-east-1", Vpc := some "vpc-1",
            RouteTable := some "rtb-1", DestinationCidr := some "10.0.0.0/16",
            InternetGateway := some "igw-abc123" }], Ctl.next) := by
  decide

/-- C9: a matching route without a destination CIDR makes the worker panic
before it sends anything; no record with an absent destination is sent. -/
theorem getRoute_panics_without_cidr :
    getRoute noCidrBackend ["us-east-1"] ["111111111111"] = ([], Ctl.panicked) := by
  decide

/-- C1: when a page listed before the failing one holds a matching route
without a destination CIDR, the worker panics in the first region: nothing is
sent for the account, the sentinel included. -/
theorem accountBody_fault_before_failure :
    noCidrThenFailBackend "111111111111" "us-west-2" = [none]
      ∧ accountBody noCidrThenFailBackend ["us-east-1", "us-west-2"] "111111111111"
          = ([], Ctl.panicked) := by
  decide

/-- C7 (counterexample): the second page of `us-east-1` fails after the first
page produced a finding; that finding belongs to the failing region itself,
and no region was processed before it. -/
theorem causal_order_counterexample :
    accountBody secondPageFailsBackend ["us-east-1"] "111111111111"
        = ([{ Account := "111111111111", Region := "us-east-1", Vpc := some "vpc-1",
              RouteTable := some "rtb-1", DestinationCidr := some "0.0.0.0/0",
              InternetGateway := some "igw-abc123" }, sentinel "111111111111"], Ctl.returned)
      ∧ ¬ (∀ (pre post : List String) (R2 : String) (oks : List DescribeRouteTablesOutput)
            (rest : List PageResult),
          ["us-east-1"] = pre ++ R2 :: post →
          (∀ region ∈ pre, ∀ page ∈ secondPageFailsBackend "111111111111" region, page ≠ none) →
          secondPageFailsBackend "111111111111" R2 = oks.map some ++ none :: rest →
          ∀ rec ∈ (accountBody secondPageFailsBackend ["us-east-1"] "111111111111").1,
            rec ≠ sentinel "111111111111" → rec.Region ∈ pre) := by
  refine ⟨by decide, ?_⟩
  intro h
  have h2 := h [] [] "us-east-1"
    [{ RouteTables := [{
        VpcId := some "vpc-1"
        RouteTableId := some "rtb-1"
        Routes := [{ GatewayId := some "igw-abc123", DestinationCidrBlock := some "0.0.0.0/0" }] }] }]
    [] rfl (by simp) (by decide)
    (finding "111111111111" "us-east-1"
      { VpcId := some "vpc-1", RouteTableId := some "rtb-1", Routes := [] }
      { GatewayId := some "igw-abc123", DestinationCidrBlock := some "0.0.0.0/0" })
    (by decide) (by decide)
  simp at h2

/-- C7 (witness): the amended ordering at the finding of the counterexample. -/
theorem accountBody_causal_order_witness :
    ∃ rec ∈ (accountBody secondPageFailsBackend ["us-east-1"] "111111111111").1,
      rec ≠ sentinel "111111111111" ∧ rec.Region = "us-east-1" := by
  refine ⟨finding "111111111111" "us-east-1"
      { VpcId := some "vpc-1", RouteTableId := some "rtb-1", Routes := [] }
      { GatewayId := some "igw-abc123", DestinationCidrBlock := some "0.0.0.0/0" },
    by decide, by decide, ?_⟩
  rcases accountBody_causal_order secondPageFailsBackend ["us-east-1"] "111111111111"
    [] [] "us-east-1"
    [{ RouteTables := [{
        VpcId := some "vpc-1"
        RouteTableId := some "rtb-1"
        Routes := [{ GatewayId := some "igw-abc123", DestinationCidrBlock := some "0.0.0.0/0" }] }] }]
    [] rfl (by decide)
    (finding "111111111111" "us-east-1"
      { VpcId := some "vpc-1", RouteTableId := some "rtb-1", Routes := [] }
      { GatewayId := some "igw-abc123", DestinationCidrBlock := some "0.0.0.0/0" })
    (by decide) (by decide) with h | h
  · simp at h
  · exact h.1

/-- C8: when the write of `routes.json` fails with the error `err`, `main`
does exactly what it does when the write succeeds: it calls `WriteFile` once
and prints nothing but the marshalling error, if there is one. The error of
the write is not reported. -/
theorem report_discards_write_error (marshal : List InternetRoute → String × Option String)
    (allRoutes : List InternetRoute) (err : String) :
    (diskEnv marshal (some err)).writeFile "routes.json" (marshal allRoutes).1 = some err
      ∧ report (diskEnv marshal (some err)) allRoutes = report (diskEnv marshal none) allRoutes
      ∧ (report (diskEnv marshal (some err)) allRoutes).writes
          = [("routes.json", (marshal allRoutes).1)]
      ∧ (report (diskEnv marshal (some err)) allRoutes).printed
          = (match (marshal allRoutes).2 with
            | some merr => ["ERROR: Unable to marshal internet routes to JSON:  " ++ merr]
            | none => []) := by
  refine ⟨rfl, rfl, rfl, rfl⟩

/-- What an enabled step of `merge` does. -/
theorem mergeStep_some {α : Type} {a : MergeAction} {s s' : MergeState α}
    (h : mergeStep a s = some s') :
    s.panicked = false ∧
    ((∃ j c v rest cl, a = MergeAction.recv j
        ∧ s.lanes[j]? = some { src := c, held := none, done := false }
        ∧ s.chans[c]? = some { pending := v :: rest, closes := cl }
        ∧ s' = { s with
            chans := s.chans.set c { pending := rest, closes := cl }
            lanes := s.lanes.set j { src := c, held := some v, done := false } })
    ∨ (∃ j c v, a = MergeAction.forward j
        ∧ s.lanes[j]? = some { src := c, held := some v, done := false }
        ∧ ((s.outClosed = true ∧ s' = { s with panicked := true })
          ∨ (s.outClosed = false ∧ s' = { s with
              lanes := s.lanes.set j { src := c, held := none, done := false }
              received := s.received ++ [(c, v)] })))
    ∨ (∃ j c, a = MergeAction.finish j
        ∧ s.lanes[j]? = some { src := c, held := none, done := false }
        ∧ s.chans[c]? = some { pending := [], closes := true }
        ∧ ((s.wg = 0 ∧ s' = { s with panicked := true })
          ∨ (s.wg ≠ 0 ∧ s' = { s with
              lanes := s.lanes.set j { src := c, held := none, done := true }
              wg := s.wg - 1 })))
    ∨ (a = MergeAction.closeOut ∧ s.wg = 0 ∧ s.outClosed = false
        ∧ s' = { s with outClosed := true })) := by
  unfold mergeStep at h
  split at h
  · exact absurd h (by simp)
  · rename_i hp
    refine ⟨by simpa using hp, ?_⟩
    split at h
    · split at h
      · rename_i j _ c hl
        split at h
        · rename_i v rest cl hch
          simp at h
          exact Or.inl ⟨j, c, v, rest, cl, rfl, hl, hch, h.symm⟩
        · exact absurd h (by simp)
      · exact absurd h (by simp)
    · split at h
      · rename_i j _ c v hl
        right; left
        refine ⟨j, c, v, rfl, hl, ?_⟩
        split at h
        · rename_i hc
          simp at h
          exact Or.inl ⟨hc, h.symm⟩
        · rename_i hc
          simp at h
          exact Or.inr ⟨by simpa using hc, h.symm⟩
      · exact absurd h (by simp)
    · split at h
      · rename_i j _ c hl
        split at h
        · rename_i hch
          right; right; left
          refine ⟨j, c, rfl, hl, hch, ?_⟩
          split at h
          · rename_i hc
            simp at h
            exact Or.inl ⟨hc, h.symm⟩
          · rename_i hc
            simp at h
            exact Or.inr ⟨hc, h.symm⟩
        · exact absurd h (by simp)
      · exact absurd h (by simp)
    · split at h
      · rename_i hc
        simp at h
        exact Or.inr (Or.inr (Or.inr ⟨rfl, hc.1, hc.2, h.symm⟩))
      · exact absurd h (by simp)

theorem receivedOn_append_single {α : Type} (c c' : Nat) (v : α) (log : List (Nat × α)) :
    receivedOn c (log ++ [(c', v)])
      = if c' = c then receivedOn c log ++ [v] else receivedOn c log := by
  unfold receivedOn
  by_cases h : c' = c <;> simp [List.filter_append, h]

theorem receivedOn_eq_nil {α : Type} (c : Nat) (cs : List Nat) (log : List (Nat × α))
    (h : ∀ p ∈ log, p.1 ∈ cs) (hc : c ∉ cs) : receivedOn c log = [] := by
  unfold receivedOn
  rw [List.map_eq_nil_iff, List.filter_eq_nil_iff]
  intro p hp
  have := h p hp
  simp only [decide_eq_true_eq]
  intro hpc
  exact hc (hpc ▸ this)

theorem pendingOf_set_self {α : Type} {chans : List (Chan α)} {c : Nat} {ch : Chan α}
    (h : chans[c]? = some ch) (ch' : Chan α) :
    pendingOf (chans.set c ch') c = ch'.pending := by
  have hc := lt_length_of_getElem? h
  unfold pendingOf
  rw [List.getElem?_set]
  simp [hc]

theorem pendingOf_set_ne {α : Type} (chans : List (Chan α)) {c c' : Nat} (h : c' ≠ c)
    (ch' : Chan α) : pendingOf (chans.set c ch') c' = pendingOf chans c' := by
  unfold pendingOf
  rw [List.getElem?_set]
  simp [h.symm]

theorem pendingOf_of_getElem? {α : Type} {chans : List (Chan α)} {c : Nat} {ch : Chan α}
    (h : chans[c]? = some ch) : pendingOf chans c = ch.pending := by
  unfold pendingOf
  rw [h]

theorem pendingOf_init {α : Type} (ins : List (List α × Bool)) (c : Nat) :
    pendingOf (ins.map fun p => ({ pending := p.1, closes := p.2 } : Chan α)) c
      = sentOn ins c := by
  unfold pendingOf sentOn
  rw [List.getElem?_map, List.getD_eq_getElem?_getD]
  cases ins[c]? <;> rfl

/-- Two entries of a list that hold the same value make it occur twice. -/
theorem two_le_count {l : List Nat} {j k c : Nat} (hj : l[j]? = some c) (hk : l[k]? = some c)
    (hjk : j ≠ k) : 2 ≤ l.count c := by
  induction l generalizing j k with
  | nil => simp at hj
  | cons x xs ih =>
    cases j with
    | zero =>
      cases k with
      | zero => exact absurd rfl hjk
      | succ k =>
        simp at hj hk
        subst hj
        have : 0 < xs.count x := List.count_pos_iff.2 (List.mem_iff_getElem?.2 ⟨k, hk⟩)
        simp only [List.count_cons_self]
        omega
    | succ j =>
      cases k with
      | zero =>
        simp at hj hk
        subst hk
        have : 0 < xs.count x := List.count_pos_iff.2 (List.mem_iff_getElem?.2 ⟨j, hj⟩)
        simp only [List.count_cons_self]
        omega
      | succ k =>
        simp at hj hk
        have := ih hj hk (fun h => hjk (by rw [h]))
        have hle : xs.count c ≤ (x :: xs).count c := by
          rw [List.count_cons]
          omega
        omega

/-- A channel named once in the argument list has one `output` goroutine. -/
theorem src_ne_of_count {α : Type} {cs : List Nat} {lanes : List (Lane α)}
    (hsrc : lanes.map (fun l => l.src) = cs) {j k : Nat} {l l' : Lane α}
    (hl : lanes[j]? = some l) (hl' : lanes[k]? = some l') (hkj : k ≠ j)
    (hcount : cs.count l'.src ≤ 1) : l'.src ≠ l.src := by
  intro heq
  have h1 : cs[j]? = some l'.src := by
    rw [← hsrc, List.getElem?_map, hl, heq]
    rfl
  have h2 : cs[k]? = some l'.src := by
    rw [← hsrc, List.getElem?_map, hl']
    rfl
  have := two_le_count h1 h2 (fun h => hkj h.symm)
  omega

theorem src_mem {α : Type} {cs : List Nat} {lanes : List (Lane α)}
    (hsrc : lanes.map (fun l => l.src) = cs) {j : Nat} {l : Lane α}
    (hl : lanes[j]? = some l) : l.src ∈ cs := by
  rw [← hsrc]
  exact List.mem_map.2 ⟨l, List.mem_iff_getElem?.2 ⟨j, hl⟩, rfl⟩

theorem mergeInit_inv {α : Type} (ins : List (List α × Bool)) (cs : List Nat) :
    MergeInv ins cs (mergeInit ins cs) where
  srcs := by simp [mergeInit, Function.comp_def]
  closesOf := by simp [mergeInit, Function.comp_def]
  multi := by
    intro c
    have h0 : (((mergeInit ins cs).lanes.map fun l => (heldFrom c l : Multiset α))).sum = 0 := by
      apply sum_map_eq_zero_add
      intro l hl
      simp only [mergeInit, List.mem_map] at hl
      obtain ⟨c', _, rfl⟩ := hl
      simp [heldFrom]
    rw [h0]
    simp [mergeInit, receivedOn, pendingOf_init]
  order := by
    intro j l hl _
    have hmem : l ∈ (mergeInit ins cs).lanes := List.mem_iff_getElem?.2 ⟨j, hl⟩
    simp only [mergeInit, List.mem_map] at hmem
    obtain ⟨c', _, rfl⟩ := hmem
    simp [mergeInit, receivedOn, pendingOf_init]
  doneEmpty := by
    intro j l hl hd
    have hmem : l ∈ (mergeInit ins cs).lanes := List.mem_iff_getElem?.2 ⟨j, hl⟩
    simp only [mergeInit, List.mem_map] at hmem
    obtain ⟨c', _, rfl⟩ := hmem
    simp at hd
  wgCount := by
    simp [mergeInit, Function.comp_def, laneOpen]
  closed := by simp [mergeInit]
  noPanic := rfl
  tags := by simp [mergeInit]

/-- An `output` goroutine that has not finished keeps the counter of `wg` positive. -/
theorem wg_pos_of_lane {α : Type} {ins : List (List α × Bool)} {cs : List Nat}
    {s : MergeState α} (inv : MergeInv ins cs s) {j : Nat} {l : Lane α}
    (hl : s.lanes[j]? = some l) (hd : l.done = false) : 0 < s.wg := by
  have := le_sum_map_of_getElem? laneOpen s.lanes j l hl
  rw [← inv.wgCount] at this
  simp [laneOpen, hd] at this
  omega

theorem laneOpen_mk {α : Type} (c : Nat) (h : Option α) (d : Bool) :
    laneOpen { src := c, held := h, done := d } = if d then 0 else 1 := rfl

theorem laneFuel_mk {α : Type} (c : Nat) (h : Option α) (d : Bool) :
    laneFuel { src := c, held := h, done := d }
      = h.toList.length + if d then 0 else 1 := rfl

theorem chanFuel_mk {α : Type} (p : List α) (cl : Bool) :
    chanFuel { pending := p, closes := cl } = 2 * p.length := rfl

theorem heldFrom_mk {α : Type} (c0 c : Nat) (h : Option α) (d : Bool) :
    heldFrom c0 { src := c, held := h, done := d } = if c = c0 then h.toList else [] := rfl

/-- Every step of `merge` keeps the invariant and uses up fuel. -/
theorem mergeStep_inv {α : Type} {ins : List (List α × Bool)} {cs : List Nat}
    {a : MergeAction} {s s' : MergeState α} (inv : MergeInv ins cs s)
    (h : mergeStep a s = some s') :
    MergeInv ins cs s' ∧ mergeFuel s' < mergeFuel s := by
  obtain ⟨_, hcase⟩ := mergeStep_some h
  have hwgc := inv.wgCount
  rcases hcase with ⟨j, c, v, rest, cl, _, hl, hch, rfl⟩ | ⟨j, c, v, _, hl, hsub⟩
    | ⟨j, c, _, hl, hch, hsub⟩ | ⟨_, hwg, hoc, rfl⟩
  · -- recv
    have hcount := sum_map_set laneOpen s.lanes j _
      { src := c, held := some v, done := false } hl
    have hfuel := sum_map_set laneFuel s.lanes j _
      { src := c, held := some v, done := false } hl
    have hcfuel := sum_map_set chanFuel s.chans c _ { pending := rest, closes := cl } hch
    simp only [laneOpen_mk, laneFuel_mk, chanFuel_mk, List.length_cons, Option.toList,
      List.length_nil, List.length_singleton, Bool.false_eq_true, if_true, if_false]
      at hcount hfuel hcfuel
    have hpend : pendingOf s.chans c = v :: rest := pendingOf_of_getElem? hch
    refine ⟨⟨?_, ?_, ?_, ?_, ?_, ?_, ?_, ?_, ?_⟩, ?_⟩
    · rw [← inv.srcs]
      exact map_set_same _ _ _ _ _ hl rfl
    · rw [← inv.closesOf]
      exact map_set_same _ _ _ _ _ hch rfl
    · intro c0
      have hload := sum_map_set_add (fun l => (heldFrom c0 l : Multiset α)) s.lanes j _
        { src := c, held := some v, done := false } hl
      simp only [heldFrom_mk, Option.toList] at hload
      refine records_step hload (inv.multi c0) ?_
      by_cases hc : c = c0
      · subst hc
        rw [pendingOf_set_self hch, hpend]
        simp only [if_true, Multiset.coe_nil, add_zero]
        rw [add_assoc, Multiset.coe_add, List.singleton_append]
      · rw [pendingOf_set_ne _ (fun h => hc h.symm)]
        simp only [if_neg hc]
    · intro k l' hk hcnt
      rcases getElem?_set_lane hl hk with ⟨rfl, rfl⟩ | ⟨hne, hk'⟩
      · have := inv.order k _ hl hcnt
        simp only [Option.toList, List.append_nil] at this
        dsimp only
        rw [pendingOf_set_self hch, ← this, hpend]
        simp
      · have hsrc := src_ne_of_count inv.srcs hl hk' hne hcnt
        dsimp only at hsrc ⊢
        rw [pendingOf_set_ne _ hsrc]
        exact inv.order k l' hk' hcnt
    · intro k l' hk hd
      rcases getElem?_set_lane hl hk with ⟨rfl, rfl⟩ | ⟨_, hk'⟩
      · simp at hd
      · obtain ⟨h1, h2⟩ := inv.doneEmpty k l' hk' hd
        refine ⟨h1, ?_⟩
        have hsrc : l'.src ≠ c := by
          intro heq
          rw [heq, hpend] at h2
          exact absurd h2 (by simp)
        dsimp only
        rw [pendingOf_set_ne _ hsrc]
        exact h2
    · dsimp only
      omega
    · exact inv.closed
    · exact inv.noPanic
    · exact inv.tags
    · unfold mergeFuel
      dsimp only
      omega
  · -- forward
    have hpos := wg_pos_of_lane inv hl rfl
    rcases hsub with ⟨hc, _⟩ | ⟨hc, rfl⟩
    · have := inv.closed hc
      omega
    have hcount := sum_map_set laneOpen s.lanes j _
      { src := c, held := none, done := false } hl
    have hfuel := sum_map_set laneFuel s.lanes j _
      { src := c, held := none, done := false } hl
    simp only [laneOpen_mk, laneFuel_mk, List.length_cons, Option.toList,
      List.length_nil, List.length_singleton, Bool.false_eq_true, if_true, if_false]
      at hcount hfuel
    refine ⟨⟨?_, ?_, ?_, ?_, ?_, ?_, ?_, ?_, ?_⟩, ?_⟩
    · rw [← inv.srcs]
      exact map_set_same _ _ _ _ _ hl rfl
    · exact inv.closesOf
    · intro c0
      have hload := sum_map_set_add (fun l => (heldFrom c0 l : Multiset α)) s.lanes j _
        { src := c, held := none, done := false } hl
      simp only [heldFrom_mk, Option.toList] at hload
      refine records_step hload (inv.multi c0) ?_
      dsimp only
      rw [receivedOn_append_single]
      by_cases hc0 : c = c0
      · subst hc0
        simp only [if_true, Multiset.coe_nil, add_zero, ← Multiset.coe_add]
      · simp only [if_neg hc0]
    · intro k l' hk hcnt
      dsimp only
      rw [receivedOn_append_single]
      rcases getElem?_set_lane hl hk with ⟨rfl, rfl⟩ | ⟨hne, hk'⟩
      · have := inv.order k _ hl hcnt
        simp only [Option.toList] at this
        simp only [if_true, Option.toList, List.append_nil]
        rw [← this]
      · have hsrc := src_ne_of_count inv.srcs hl hk' hne hcnt
        dsimp only at hsrc
        rw [if_neg (fun h => hsrc h.symm)]
        exact inv.order k l' hk' hcnt
    · intro k l' hk hd
      rcases getElem?_set_lane hl hk with ⟨rfl, rfl⟩ | ⟨_, hk'⟩
      · simp at hd
      · exact inv.doneEmpty k l' hk' hd
    · dsimp only
      omega
    · intro hc'
      rw [show s.outClosed = true from hc'] at hc
      exact absurd hc (by simp)
    · exact inv.noPanic
    · intro q hq
      simp only [List.mem_append, List.mem_singleton] at hq
      rcases hq with hq | rfl
      · exact inv.tags q hq
      · exact src_mem inv.srcs hl
    · unfold mergeFuel
      dsimp only
      omega
  · -- finish
    have hpos := wg_pos_of_lane inv hl rfl
    rcases hsub with ⟨hc, _⟩ | ⟨hc, rfl⟩
    · omega
    have hcount := sum_map_set laneOpen s.lanes j _
      { src := c, held := none, done := true } hl
    have hfuel := sum_map_set laneFuel s.lanes j _
      { src := c, held := none, done := true } hl
    simp only [laneOpen_mk, laneFuel_mk, List.length_cons, Option.toList,
      List.length_nil, List.length_singleton, Bool.false_eq_true, if_true, if_false]
      at hcount hfuel
    refine ⟨⟨?_, ?_, ?_, ?_, ?_, ?_, ?_, ?_, ?_⟩, ?_⟩
    · rw [← inv.srcs]
      exact map_set_same _ _ _ _ _ hl rfl
    · exact inv.closesOf
    · intro c0
      have hsame := map_set_same (fun l => (heldFrom c0 l : Multiset α)) s.lanes j _
        { src := c, held := none, done := true } hl (by rfl)
      dsimp only
      rw [hsame]
      exact inv.multi c0
    · intro k l' hk hcnt
      rcases getElem?_set_lane hl hk with ⟨rfl, rfl⟩ | ⟨_, hk'⟩
      · exact inv.order k { src := c, held := none, done := false } hl hcnt
      · exact inv.order k l' hk' hcnt
    · intro k l' hk hd
      rcases getElem?_set_lane hl hk with ⟨rfl, rfl⟩ | ⟨_, hk'⟩
      · exact ⟨rfl, pendingOf_of_getElem? hch⟩
      · exact inv.doneEmpty k l' hk' hd
    · dsimp only
      omega
    · intro hc'
      have := inv.closed hc'
      omega
    · exact inv.noPanic
    · exact inv.tags
    · unfold mergeFuel
      dsimp only
      omega
  · -- closeOut
    refine ⟨⟨inv.srcs, inv.closesOf, inv.multi, inv.order, inv.doneEmpty, inv.wgCount,
      fun _ => hwg, inv.noPanic, inv.tags⟩, ?_⟩
    simp [mergeFuel, hoc]

/-- Every interleaving keeps the invariant, and is no longer than the fuel it
uses up. -/
theorem runMerge_inv {α : Type} {ins : List (List α × Bool)} {cs : List Nat}
    (sched : List MergeAction) {s s' : MergeState α} (inv : MergeInv ins cs s)
    (h : runMerge sched s = some s') :
    MergeInv ins cs s' ∧ sched.length + mergeFuel s' ≤ mergeFuel s := by
  induction sched generalizing s with
  | nil =>
    simp only [runMerge, Option.some.injEq] at h
    subst h
    exact ⟨inv, by simp⟩
  | cons a rest ih =>
    simp only [runMerge] at h
    cases hstep : mergeStep a s with
    | none => simp [hstep] at h
    | some s1 =>
      simp only [hstep] at h
      obtain ⟨inv1, hlt⟩ := mergeStep_inv inv hstep
      obtain ⟨inv', hle⟩ := ih inv1 h
      refine ⟨inv', ?_⟩
      simp only [List.length_cons]
      omega

theorem mergeFuel_init {α : Type} (ins : List (List α × Bool)) (cs : List Nat) :
    mergeFuel (mergeInit ins cs)
      = (ins.map fun p => 2 * p.1.length).sum + cs.length + 1 := by
  simp [mergeFuel, mergeInit, laneFuel, laneOpen, chanFuel, Function.comp_def]

/-- When no step of `merge` is enabled, no `output` goroutine holds a value,
nothing is left to send on a channel that has one, and the `output`
goroutines of a channel that gets closed have finished. -/
theorem lanes_quiet_of_stuck {α : Type} {ins : List (List α × Bool)} {cs : List Nat}
    {s : MergeState α} (inv : MergeInv ins cs s) (hstuck : ∀ a, mergeStep a s = none)
    (j : Nat) (l : Lane α) (hl : s.lanes[j]? = some l) :
    l.held = none ∧ pendingOf s.chans l.src = []
      ∧ ((∃ ch, s.chans[l.src]? = some ch ∧ ch.closes = true) → l.done = true) := by
  obtain ⟨c, hd, d⟩ := l
  cases d with
  | true =>
    obtain ⟨h1, h2⟩ := inv.doneEmpty j _ hl rfl
    exact ⟨h1, h2, fun _ => rfl⟩
  | false =>
    have hnp := inv.noPanic
    cases hd with
    | some v =>
      exfalso
      have := hstuck (MergeAction.forward j)
      cases hc : s.outClosed <;> simp [mergeStep, hnp, hl, hc] at this
    | none =>
      cases hch : s.chans[c]? with
      | none =>
        refine ⟨rfl, ?_, ?_⟩
        · simp [pendingOf, hch]
        · rintro ⟨ch, hch', _⟩
          exact absurd hch' (by simp)
      | some ch =>
        obtain ⟨p, cl⟩ := ch
        cases p with
        | cons v rest =>
          exfalso
          have := hstuck (MergeAction.recv j)
          simp [mergeStep, hnp, hl, hch] at this
        | nil =>
          refine ⟨rfl, ?_, ?_⟩
          · simp [pendingOf, hch]
          · rintro ⟨ch, hch', hcl⟩
            simp only [Option.some.injEq] at hch'
            subst hch'
            simp only at hcl
            subst hcl
            exfalso
            have := hstuck (MergeAction.finish j)
            by_cases hc : s.wg = 0 <;> simp [mergeStep, hnp, hl, hch, hc] at this

/-- Once no `output` goroutine holds a value and nothing is left to send on
their channels, the reader has received, from every channel of the argument
list, each value sent on it once, and in the order sent if the channel is
named once. -/
theorem merge_complete_of_quiet {α : Type} {ins : List (List α × Bool)} {cs : List Nat}
    {s : MergeState α} (inv : MergeInv ins cs s)
    (hquiet : ∀ (j : Nat) (l : Lane α), s.lanes[j]? = some l →
      l.held = none ∧ pendingOf s.chans l.src = []) :
    ∀ c ∈ cs, List.Perm (receivedOn c s.received) (sentOn ins c)
      ∧ (cs.count c ≤ 1 → receivedOn c s.received = sentOn ins c) := by
  intro c hc
  rw [← inv.srcs] at hc
  obtain ⟨l, hmem, hsrc⟩ := List.mem_map.1 hc
  obtain ⟨j, hj⟩ := List.mem_iff_getElem?.1 hmem
  obtain ⟨hheld, hpend⟩ := hquiet j l hj
  subst hsrc
  constructor
  · have h0 : (s.lanes.map fun l' => (heldFrom l.src l' : Multiset α)).sum = 0 := by
      apply sum_map_eq_zero_add
      intro l' hl'
      obtain ⟨k, hk⟩ := List.mem_iff_getElem?.1 hl'
      simp [heldFrom, (hquiet k l' hk).1]
    have := inv.multi l.src
    rw [h0, hpend, Multiset.coe_nil, add_zero, add_zero] at this
    exact Multiset.coe_eq_coe.1 this
  · intro hcnt
    have := inv.order j l hj hcnt
    rw [hheld, hpend] at this
    simpa using this

/-- When `out` is closed, every `output` goroutine has finished. -/
theorem lanes_done_of_closed {α : Type} {ins : List (List α × Bool)} {cs : List Nat}
    {s : MergeState α} (inv : MergeInv ins cs s) (hoc : s.outClosed = true)
    (j : Nat) (l : Lane α) (hl : s.lanes[j]? = some l) : l.done = true := by
  cases hd : l.done with
  | true => rfl
  | false =>
    have := wg_pos_of_lane inv hl hd
    have := inv.closed hoc
    omega

/-- When no step of `merge` is enabled and the sender of every channel of the
argument list closes its channel, `out` is closed. -/
theorem merge_stuck {α : Type} {ins : List (List α × Bool)} {cs : List Nat}
    {s : MergeState α} (inv : MergeInv ins cs s) (hstuck : ∀ a, mergeStep a s = none)
    (hcl : ∀ c ∈ cs, ∃ p, ins[c]? = some p ∧ p.2 = true) : s.outClosed = true := by
  have hwg : s.wg = 0 := by
    rw [inv.wgCount]
    apply sum_map_eq_zero
    intro l hl
    obtain ⟨j, hj⟩ := List.mem_iff_getElem?.1 hl
    obtain ⟨p, hp, hp2⟩ := hcl l.src (src_mem inv.srcs hj)
    have hcloses : (s.chans.map fun ch => ch.closes)[l.src]? = some true := by
      rw [inv.closesOf, List.getElem?_map, hp, ← hp2]
      rfl
    rw [List.getElem?_map] at hcloses
    have hch : ∃ ch, s.chans[l.src]? = some ch ∧ ch.closes = true := by
      cases hx : s.chans[l.src]? with
      | none => simp [hx] at hcloses
      | some ch =>
        simp [hx] at hcloses
        exact ⟨ch, rfl, hcloses⟩
    simp [laneOpen, (lanes_quiet_of_stuck inv hstuck j l hj).2.2 hch]
  by_contra hc
  have := hstuck MergeAction.closeOut
  simp [mergeStep, inv.noPanic, hwg, hc] at this

/-- C3 (amended): `merge` is a lossless fan-in, and keeps the order of a channel that is
named once in its argument list. Along every interleaving no goroutine of
`merge` panics, every value the reader has received was sent on a channel of
the argument list, what the reader has received from a channel is, counted
with multiplicity, part of what was sent on it, and is a prefix of it if the
channel is named once; and the interleaving is finite. `out` is closed only
when the reader has received, from every channel of the argument list, each
value sent on it exactly once, and in the order sent if the channel is named
once. Once no step is left the reader has received exactly these values,
whether a sender closed its channel early, late or not at all, and `out` is
closed if every sender closed its channel. -/
theorem merge_lossless {α : Type} (ins : List (List α × Bool)) (cs : List Nat)
    (sched : List MergeAction) (s : MergeState α)
    (hrun : runMerge sched (mergeInit ins cs) = some s) :
    s.panicked = false
    ∧ (∀ p ∈ s.received, p.1 ∈ cs)
    ∧ (∀ c, List.Subperm (receivedOn c s.received) (sentOn ins c))
    ∧ (∀ c, cs.count c ≤ 1 → receivedOn c s.received <+: sentOn ins c)
    ∧ sched.length ≤ (ins.map fun p => 2 * p.1.length).sum + cs.length + 1
    ∧ (s.outClosed = true →
        ∀ c ∈ cs, List.Perm (receivedOn c s.received) (sentOn ins c)
          ∧ (cs.count c ≤ 1 → receivedOn c s.received = sentOn ins c))
    ∧ ((∀ a, mergeStep a s = none) →
        (∀ c ∈ cs, List.Perm (receivedOn c s.received) (sentOn ins c)
          ∧ (cs.count c ≤ 1 → receivedOn c s.received = sentOn ins c))
        ∧ ((∀ c ∈ cs, ∃ p, ins[c]? = some p ∧ p.2 = true) → s.outClosed = true)) := by
  obtain ⟨inv, hfuel⟩ := runMerge_inv sched (mergeInit_inv ins cs) hrun
  rw [mergeFuel_init] at hfuel
  refine ⟨inv.noPanic, inv.tags, ?_, ?_, by omega, ?_, ?_⟩
  · intro c
    rw [← Multiset.coe_le, ← inv.multi c, add_assoc]
    exact Multiset.le_add_right _ _
  · intro c hcnt
    by_cases hc : c ∈ cs
    · rw [← inv.srcs] at hc
      obtain ⟨l, hmem, hsrc⟩ := List.mem_map.1 hc
      obtain ⟨j, hj⟩ := List.mem_iff_getElem?.1 hmem
      subst hsrc
      have := inv.order j l hj hcnt
      rw [← this, List.append_assoc]
      exact List.prefix_append _ _
    · rw [receivedOn_eq_nil c cs s.received inv.tags hc]
      exact List.nil_prefix
  · intro hoc
    exact merge_complete_of_quiet inv
      (fun j l hl => inv.doneEmpty j l hl (lanes_done_of_closed inv hoc j l hl))
  · intro hstuck
    exact ⟨merge_complete_of_quiet inv
      (fun j l hl => ⟨(lanes_quiet_of_stuck inv hstuck j l hl).1,
        (lanes_quiet_of_stuck inv hstuck j l hl).2.1⟩), merge_stuck inv hstuck⟩

theorem twoFinal_stuck (a : MergeAction) : mergeStep a twoFinal = none := by
  cases a with
  | recv j => rcases j with _ | _ | j <;> simp [mergeStep, twoFinal]
  | forward j => rcases j with _ | _ | j <;> simp [mergeStep, twoFinal]
  | finish j => rcases j with _ | _ | j <;> simp [mergeStep, twoFinal]
  | closeOut => simp [mergeStep, twoFinal]

/-- C3 (witness): the two workers of the spec's scenario, one sending a
finding and one a sentinel on a channel of its own, under one interleaving of
`merge` run to its end: `out` is closed, and the reader has received from each
channel what was sent on it. -/
theorem merge_lossless_witness :
    runMerge twoSchedule (mergeInit twoSenders [0, 1]) = some twoFinal
      ∧ twoFinal.outClosed = true
      ∧ receivedOn 0 twoFinal.received = [scenarioFinding]
      ∧ receivedOn 1 twoFinal.received = [sentinel "222222222222"] := by
  have h := merge_lossless twoSenders [0, 1] twoSchedule twoFinal (by decide)
  have hend := h.2.2.2.2.2.2 twoFinal_stuck
  exact ⟨by decide, hend.2 (by decide), (hend.1 0 (by decide)).2 (by decide),
    (hend.1 1 (by decide)).2 (by decide)⟩

/-- C3 (counterexample): `merge(c, c)` over one channel on which a finding and
then a sentinel are sent. Two `output` goroutines range over `c`; the first
receives the finding, the second the sentinel, and the second sends on `out`
first, so the reader receives the two records of `c` in the other order. -/
theorem merge_order_counterexample :
    runMerge overtakeSchedule (mergeInit oneSender [0, 0]) = some overtakeFinal
      ∧ sentOn oneSender 0 = [scenarioFinding, sentinel "111111111111"]
      ∧ receivedOn 0 overtakeFinal.received = [sentinel "111111111111", scenarioFinding]
      ∧ ¬ (∀ (sched : List MergeAction) (s : MergeState InternetRoute),
            runMerge sched (mergeInit oneSender [0, 0]) = some s →
            ∀ c, List.Sublist (receivedOn c s.received) (sentOn oneSender c)) := by
  refine ⟨by decide, rfl, rfl, ?_⟩
  intro h
  have h2 := h overtakeSchedule overtakeFinal (by decide) 0
  exact absurd h2 (by decide)

/-- What an enabled step of the pipeline does. -/
theorem pipeStep_some {backend : Backend} {regions : List String} {a : PipeAction}
    {s s' : Pipeline} (h : pipeStep backend regions a s = some s') :
    s.crashed = false ∧
    ((∃ i account rest ev hd d, a = PipeAction.take i ∧ s.backlog = account :: rest
        ∧ s.stages[i]? = some { pc := WorkerPc.idle, events := ev, held := hd, done := d }
        ∧ s' = { s with
            backlog := rest
            stages := s.stages.set i
              { pc := WorkerPc.scanning (accountBody backend regions account).1
                  (accountBody backend regions account).2
                events := ev, held := hd, done := d }
            taken := s.taken ++ [(i, account)] })
    ∨ (a = PipeAction.closeIn ∧ s.backlog = [] ∧ s.inClosed = false
        ∧ s' = { s with inClosed := true })
    ∨ (∃ i ev hd d, a = PipeAction.drained i ∧ s.inClosed = true
        ∧ s.stages[i]? = some { pc := WorkerPc.idle, events := ev, held := hd, done := d }
        ∧ s' = { s with
            stages := s.stages.set i
              { pc := WorkerPc.exited, events := ev ++ [ChanEvent.closed], held := hd,
                done := d } })
    ∨ (∃ i n q c ev, a = PipeAction.send i
        ∧ s.stages[i]? = some { pc := WorkerPc.scanning (n :: q) c, events := ev, held := none,
                                done := false }
        ∧ s' = { s with
            stages := s.stages.set i
              { pc := WorkerPc.scanning q c, events := ev ++ [ChanEvent.sent n],
                held := some n, done := false } })
    ∨ (∃ i ev hd d, a = PipeAction.nextAccount i
        ∧ s.stages[i]? = some { pc := WorkerPc.scanning [] Ctl.next, events := ev, held := hd,
                                done := d }
        ∧ s' = { s with
            stages := s.stages.set i
              { pc := WorkerPc.idle, events := ev, held := hd, done := d } })
    ∨ (∃ i ev hd d, a = PipeAction.failReturn i
        ∧ s.stages[i]? = some { pc := WorkerPc.scanning [] Ctl.returned, events := ev,
                                held := hd, done := d }
        ∧ s' = { s with
            stages := s.stages.set i
              { pc := WorkerPc.exited, events := ev ++ [ChanEvent.closed], held := hd,
                done := d } })
    ∨ (∃ i ev hd d, a = PipeAction.panic i
        ∧ s.stages[i]? = some { pc := WorkerPc.scanning [] Ctl.panicked, events := ev,
                                held := hd, done := d }
        ∧ s' = { s with crashed := true })
    ∨ (∃ i pc ev n, a = PipeAction.forward i
        ∧ s.stages[i]? = some { pc := pc, events := ev, held := some n, done := false }
        ∧ ((s.outClosed = true ∧ s' = { s with crashed := true })
          ∨ (s.outClosed = false ∧ s' = { s with
              stages := s.stages.set i { pc := pc, events := ev, held := none, done := false }
              allRoutes := s.allRoutes ++ [n]
              outEvents := s.outEvents ++ [ChanEvent.sent n] })))
    ∨ (∃ i ev, a = PipeAction.finish i
        ∧ s.stages[i]? = some { pc := WorkerPc.exited, events := ev, held := none,
                                done := false }
        ∧ ((s.wg = 0 ∧ s' = { s with crashed := true })
          ∨ (s.wg ≠ 0 ∧ s' = { s with
              stages := s.stages.set i
                { pc := WorkerPc.exited, events := ev, held := none, done := true }
              wg := s.wg - 1 })))
    ∨ (a = PipeAction.closeOut ∧ s.wg = 0 ∧ s.outClosed = false
        ∧ s' = { s with outClosed := true, outEvents := s.outEvents ++ [ChanEvent.closed] })) := by
  unfold pipeStep at h
  split at h
  · exact absurd h (by simp)
  · rename_i hp
    refine ⟨by simpa using hp, ?_⟩
    split at h
    · -- take
      split at h
      · rename_i i _ _ account rest ev hd d hb hl
        simp at h
        exact Or.inl ⟨i, account, rest, ev, hd, d, rfl, hb, hl, h.symm⟩
      · exact absurd h (by simp)
    · -- closeIn
      split at h
      · rename_i hc
        simp at h
        exact Or.inr (Or.inl ⟨rfl, hc.1, hc.2, h.symm⟩)
      · exact absurd h (by simp)
    · -- drained
      split at h
      · rename_i i _ ev hd d hl
        split at h
        · rename_i hc
          simp at h
          exact Or.inr (Or.inr (Or.inl ⟨i, ev, hd, d, rfl, hc, hl, h.symm⟩))
        · exact absurd h (by simp)
      · exact absurd h (by simp)
    · -- send
      split at h
      · rename_i i _ n q c ev hl
        simp at h
        exact Or.inr (Or.inr (Or.inr (Or.inl ⟨i, n, q, c, ev, rfl, hl, h.symm⟩)))
      · exact absurd h (by simp)
    · -- nextAccount
      split at h
      · rename_i i _ ev hd d hl
        simp at h
        exact Or.inr (Or.inr (Or.inr (Or.inr (Or.inl ⟨i, ev, hd, d, rfl, hl, h.symm⟩))))
      · exact absurd h (by simp)
    · -- failReturn
      split at h
      · rename_i i _ ev hd d hl
        simp at h
        exact Or.inr (Or.inr (Or.inr (Or.inr (Or.inr (Or.inl
          ⟨i, ev, hd, d, rfl, hl, h.symm⟩)))))
      · exact absurd h (by simp)
    · -- panic
      split at h
      · rename_i i _ ev hd d hl
        simp at h
        exact Or.inr (Or.inr (Or.inr (Or.inr (Or.inr (Or.inr (Or.inl
          ⟨i, ev, hd, d, rfl, hl, h.symm⟩))))))
      · exact absurd h (by simp)
    · -- forward
      split at h
      · rename_i i _ pc ev n hl
        refine Or.inr (Or.inr (Or.inr (Or.inr (Or.inr (Or.inr (Or.inr (Or.inl
          ⟨i, pc, ev, n, rfl, hl, ?_⟩)))))))
        split at h
        · rename_i hc
          simp at h
          exact Or.inl ⟨hc, h.symm⟩
        · rename_i hc
          simp at h
          exact Or.inr ⟨by simpa using hc, h.symm⟩
      · exact absurd h (by simp)
    · -- finish
      split at h
      · rename_i i _ ev hl
        refine Or.inr (Or.inr (Or.inr (Or.inr (Or.inr (Or.inr (Or.inr (Or.inr (Or.inl
          ⟨i, ev, rfl, hl, ?_⟩))))))))
        split at h
        · rename_i hc
          simp at h
          exact Or.inl ⟨hc, h.symm⟩
        · rename_i hc
          simp at h
          exact Or.inr ⟨hc, h.symm⟩
      · exact absurd h (by simp)
    · -- closeOut
      split at h
      · rename_i hc
        simp at h
        exact Or.inr (Or.inr (Or.inr (Or.inr (Or.inr (Or.inr (Or.inr (Or.inr (Or.inr
          ⟨rfl, hc.1, hc.2, h.symm⟩))))))))
      · exact absurd h (by simp)

theorem foldl_append_new (accounts : List String) (out : List Stage) :
    accounts.foldl (fun out _ => out ++ [newStage]) out
      = out ++ List.replicate accounts.length newStage := by
  induction accounts generalizing out with
  | nil => simp
  | cons a rest ih =>
    rw [List.foldl_cons, ih, List.length_cons, List.replicate_succ, List.append_assoc]
    rfl

/-- `main` starts one worker per account. -/
theorem startWorkers_eq (accounts : List String) :
    startWorkers accounts = List.replicate accounts.length newStage := by
  unfold startWorkers
  rw [foldl_append_new, List.nil_append]

theorem pipeInit_inv (backend : Backend) (regions accounts : List String) :
    PipeInv backend regions accounts (pipeInit accounts) where
  len := by simp [pipeInit, startWorkers_eq]
  stageOk := by
    intro i st h
    simp only [pipeInit, startWorkers_eq] at h
    have := getElem?_replicate_some h
    subst this
    exact ⟨fun _ => ⟨[], rfl⟩, fun h => absurd h (by simp [newStage]),
      fun h => absurd h (by simp [newStage]), fun q c h => absurd h (by simp [newStage])⟩
  inClosedEmpty := by simp [pipeInit]
  wgCount := by simp [pipeInit, startWorkers_eq, stageOpen, newStage]
  closed := by simp [pipeInit]
  idle := by
    intro _
    simp [pipeInit, startWorkers_eq, pcIdle, newStage]
  crashedBy := by simp [pipeInit]
  takenAll := by simp [pipeInit]
  outLog := by simp [pipeInit]
  faults := by simp [pipeInit, startWorkers_eq, pcFault, newStage]
  routes := by
    simp [pipeInit, startWorkers_eq, stageLoad, pcQueue, newStage]

theorem stageOpen_mk (pc : WorkerPc) (ev : List ChanEvent) (h : Option InternetRoute)
    (d : Bool) :
    stageOpen { pc := pc, events := ev, held := h, done := d } = if d then 0 else 1 := rfl

theorem stageFuel_mk (pc : WorkerPc) (ev : List ChanEvent) (h : Option InternetRoute)
    (d : Bool) :
    stageFuel { pc := pc, events := ev, held := h, done := d }
      = pcFuel pc + h.toList.length + if d then 0 else 1 := rfl

theorem stageLoad_mk (pc : WorkerPc) (ev : List ChanEvent) (h : Option InternetRoute)
    (d : Bool) :
    stageLoad { pc := pc, events := ev, held := h, done := d } = h.toList ++ pcQueue pc := rfl

theorem pcIdle_idle : pcIdle WorkerPc.idle = 1 := rfl

theorem pcIdle_scanning (q : List InternetRoute) (c : Ctl) :
    pcIdle (WorkerPc.scanning q c) = 0 := rfl

theorem pcIdle_exited : pcIdle WorkerPc.exited = 0 := rfl

theorem pcQueue_idle : pcQueue WorkerPc.idle = [] := rfl

theorem pcQueue_scanning (q : List InternetRoute) (c : Ctl) :
    pcQueue (WorkerPc.scanning q c) = q := rfl

theorem pcQueue_exited : pcQueue WorkerPc.exited = [] := rfl

theorem pcFuel_idle : pcFuel WorkerPc.idle = 1 := rfl

theorem pcFuel_scanning (q : List InternetRoute) (c : Ctl) :
    pcFuel (WorkerPc.scanning q c) = 2 * q.length + 2 := rfl

theorem pcFuel_exited : pcFuel WorkerPc.exited = 0 := rfl

theorem pcFault_idle : pcFault WorkerPc.idle = 0 := rfl

theorem pcFault_scanning (q : List InternetRoute) (c : Ctl) :
    pcFault (WorkerPc.scanning q c) = ctlFault c := rfl

theorem pcFault_exited : pcFault WorkerPc.exited = 0 := rfl

theorem ctlFault_next : ctlFault Ctl.next = 0 := rfl

theorem ctlFault_returned : ctlFault Ctl.returned = 0 := rfl

theorem ctlFault_panicked : ctlFault Ctl.panicked = 1 := rfl

theorem faultsOf_cons (backend : Backend) (regions : List String) (account : String)
    (rest : List String) :
    faultsOf backend regions (account :: rest)
      = ctlFault (accountBody backend regions account).2 + faultsOf backend regions rest := by
  simp [faultsOf]

theorem recordsOf_cons (backend : Backend) (regions : List String) (account : String)
    (rest : List String) :
    recordsOf backend regions (account :: rest)
      = ((accountBody backend regions account).1 : Multiset InternetRoute)
        + recordsOf backend regions rest := by
  simp [recordsOf]

/-- A stage whose `output` goroutine has not finished keeps `wg` positive. -/
theorem wg_pos_of_stage {backend : Backend} {regions accounts : List String} {s : Pipeline}
    (inv : PipeInv backend regions accounts s) {i : Nat} {st : Stage}
    (hl : s.stages[i]? = some st) (hd : st.done = false) : 0 < s.wg := by
  have := le_sum_map_of_getElem? stageOpen s.stages i st hl
  rw [← inv.wgCount] at this
  simp [stageOpen, hd] at this
  omega

/-- Every step of the pipeline keeps the invariant and uses up fuel. -/
theorem pipeStep_inv {backend : Backend} {regions accounts : List String} {a : PipeAction}
    {s s' : Pipeline} (inv : PipeInv backend regions accounts s)
    (h : pipeStep backend regions a s = some s') :
    PipeInv backend regions accounts s' ∧ pipeFuel backend regions s' < pipeFuel backend regions s := by
  obtain ⟨hcr, hcase⟩ := pipeStep_some h
  have hwgc := inv.wgCount
  have hrt := inv.routes
  have hft := inv.faults
  have hcrashed : s.crashed = true → False := by rw [hcr]; simp
  rcases hcase with ⟨i, account, rest, ev, hd, d, _, hb, hl, rfl⟩ | ⟨_, hb, hic, rfl⟩
    | ⟨i, ev, hd, d, _, hic, hl, rfl⟩ | ⟨i, n, q, c, ev, _, hl, rfl⟩
    | ⟨i, ev, hd, d, _, hl, rfl⟩ | ⟨i, ev, hd, d, _, hl, rfl⟩ | ⟨i, ev, hd, d, _, hl, rfl⟩
    | ⟨i, pc, ev, n, _, hl, hsub⟩ | ⟨i, ev, _, hl, hsub⟩ | ⟨_, hwg, hoc, rfl⟩
  · -- take
    have hok := inv.stageOk i _ hl
    have hopen := sum_map_set stageOpen s.stages i _
      { pc := WorkerPc.scanning (accountBody backend regions account).1
          (accountBody backend regions account).2, events := ev, held := hd, done := d } hl
    have hidl := sum_map_set (fun st => pcIdle st.pc) s.stages i _
      { pc := WorkerPc.scanning (accountBody backend regions account).1
          (accountBody backend regions account).2, events := ev, held := hd, done := d } hl
    have hfuel := sum_map_set stageFuel s.stages i _
      { pc := WorkerPc.scanning (accountBody backend regions account).1
          (accountBody backend regions account).2, events := ev, held := hd, done := d } hl
    have hload := sum_map_set_add (fun st => (stageLoad st : Multiset InternetRoute))
      s.stages i _
      { pc := WorkerPc.scanning (accountBody backend regions account).1
          (accountBody backend regions account).2, events := ev, held := hd, done := d } hl
    have hflt := sum_map_set (fun st => pcFault st.pc) s.stages i _
      { pc := WorkerPc.scanning (accountBody backend regions account).1
          (accountBody backend regions account).2, events := ev, held := hd, done := d } hl
    simp only [pcFault_idle, pcFault_scanning, pcFault_exited, ctlFault_next,
      ctlFault_returned] at hflt
    simp only [stageOpen_mk, stageFuel_mk, stageLoad_mk, pcIdle_idle, pcIdle_scanning,
      pcFuel_idle, pcFuel_scanning, pcQueue_idle, pcQueue_scanning] at hopen hidl hfuel hload
    have hmem : account ∈ accounts := by
      rw [← inv.takenAll, hb]
      simp
    have hnc : s.inClosed = false := by
      cases hc : s.inClosed
      · rfl
      · have := inv.inClosedEmpty hc
        rw [hb] at this
        exact absurd this (by simp)
    refine ⟨⟨?_, ?_, ?_, ?_, ?_, ?_, ?_, ?_, ?_, ?_, ?_⟩, ?_⟩
    · simpa using inv.len
    · apply forall_getElem?_set inv.stageOk
      exact ⟨fun _ => hok.live (by simp), fun hx => absurd hx (by simp),
        fun hx => by have := hok.doneAfter hx; simp at this,
        fun q c hx => by
          simp only [WorkerPc.scanning.injEq] at hx
          exact ⟨account, hmem, hx.2.symm⟩⟩
    · intro hx
      exact absurd (show s.inClosed = true from hx) (by simp [hnc])
    · dsimp only
      omega
    · exact inv.closed
    · intro _
      have := inv.idle hnc
      rw [hb] at this
      simp only [List.length_cons] at this
      dsimp only
      omega
    · intro hx
      exact absurd (hcrashed hx) id
    · have := inv.takenAll
      rw [hb] at this
      simpa using this
    · exact inv.outLog
    · dsimp only
      rw [hb, faultsOf_cons] at hft
      omega
    · dsimp only
      rw [hb, recordsOf_cons] at hrt
      refine records_step hload hrt ?_
      simp only [← Multiset.coe_add, List.append_nil]
      abel
    · unfold pipeFuel
      dsimp only
      rw [hb]
      simp only [List.map_cons, List.sum_cons]
      omega
  · -- closeIn
    refine ⟨⟨inv.len, inv.stageOk, fun _ => hb, inv.wgCount, inv.closed, ?_, inv.crashedBy,
      inv.takenAll, inv.outLog, inv.faults, inv.routes⟩, ?_⟩
    · intro hx
      exact absurd hx (by simp)
    · simp [pipeFuel, hic]
  · -- drained
    have hok := inv.stageOk i _ hl
    have hopen := sum_map_set stageOpen s.stages i _
      { pc := WorkerPc.exited, events := ev ++ [ChanEvent.closed], held := hd, done := d } hl
    have hfuel := sum_map_set stageFuel s.stages i _
      { pc := WorkerPc.exited, events := ev ++ [ChanEvent.closed], held := hd, done := d } hl
    have hload := sum_map_set_add (fun st => (stageLoad st : Multiset InternetRoute))
      s.stages i _
      { pc := WorkerPc.exited, events := ev ++ [ChanEvent.closed], held := hd, done := d } hl
    have hflt := sum_map_set (fun st => pcFault st.pc) s.stages i _
      { pc := WorkerPc.exited, events := ev ++ [ChanEvent.closed], held := hd, done := d } hl
    simp only [pcFault_idle, pcFault_scanning, pcFault_exited, ctlFault_next,
      ctlFault_returned] at hflt
    simp only [stageOpen_mk, stageFuel_mk, stageLoad_mk, pcFuel_idle, pcFuel_exited,
      pcQueue_idle, pcQueue_exited] at hopen hfuel hload
    refine ⟨⟨?_, ?_, ?_, ?_, ?_, ?_, ?_, ?_, ?_, ?_, ?_⟩, ?_⟩
    · simpa using inv.len
    · apply forall_getElem?_set inv.stageOk
      obtain ⟨recs, hrecs⟩ := hok.live (by simp)
      replace hrecs : ev = recs.map ChanEvent.sent := hrecs
      exact ⟨fun hx => absurd rfl hx, fun _ => ⟨recs, by simp [hrecs]⟩,
        fun hx => by have := hok.doneAfter hx; simp at this,
        fun q c hx => absurd hx (by simp)⟩
    · exact inv.inClosedEmpty
    · dsimp only
      omega
    · exact inv.closed
    · intro hx
      exact absurd (show s.inClosed = false from hx) (by simp [hic])
    · intro hx
      exact absurd (hcrashed hx) id
    · exact inv.takenAll
    · exact inv.outLog
    · dsimp only
      omega
    · dsimp only
      exact records_step hload hrt rfl
    · unfold pipeFuel
      dsimp only
      omega
  · -- send
    have hok := inv.stageOk i _ hl
    have hopen := sum_map_set stageOpen s.stages i _
      { pc := WorkerPc.scanning q c, events := ev ++ [ChanEvent.sent n], held := some n,
        done := false } hl
    have hidl := sum_map_set (fun st => pcIdle st.pc) s.stages i _
      { pc := WorkerPc.scanning q c, events := ev ++ [ChanEvent.sent n], held := some n,
        done := false } hl
    have hfuel := sum_map_set stageFuel s.stages i _
      { pc := WorkerPc.scanning q c, events := ev ++ [ChanEvent.sent n], held := some n,
        done := false } hl
    have hload := sum_map_set_add (fun st => (stageLoad st : Multiset InternetRoute))
      s.stages i _
      { pc := WorkerPc.scanning q c, events := ev ++ [ChanEvent.sent n], held := some n,
        done := false } hl
    have hflt := sum_map_set (fun st => pcFault st.pc) s.stages i _
      { pc := WorkerPc.scanning q c, events := ev ++ [ChanEvent.sent n], held := some n,
        done := false } hl
    simp only [pcFault_idle, pcFault_scanning, pcFault_exited, ctlFault_next,
      ctlFault_returned] at hflt
    simp only [stageOpen_mk, stageFuel_mk, stageLoad_mk, pcIdle_scanning, pcFuel_scanning,
      pcQueue_scanning, List.length_cons, Option.toList, List.length_nil,
      List.length_singleton] at hopen hidl hfuel hload
    refine ⟨⟨?_, ?_, ?_, ?_, ?_, ?_, ?_, ?_, ?_, ?_, ?_⟩, ?_⟩
    · simpa using inv.len
    · apply forall_getElem?_set inv.stageOk
      obtain ⟨recs, hrecs⟩ := hok.live (by simp)
      replace hrecs : ev = recs.map ChanEvent.sent := hrecs
      exact ⟨fun _ => ⟨recs ++ [n], by simp [hrecs]⟩, fun hx => absurd hx (by simp),
        fun hx => absurd hx (by simp),
        fun q' c' hx => by
          simp only [WorkerPc.scanning.injEq] at hx
          obtain ⟨account, hmem, hc⟩ := hok.scanOf (n :: q) c rfl
          exact ⟨account, hmem, by rw [← hx.2]; exact hc⟩⟩
    · exact inv.inClosedEmpty
    · dsimp only
      omega
    · exact inv.closed
    · intro hx
      have := inv.idle hx
      dsimp only
      omega
    · intro hx
      exact absurd (hcrashed hx) id
    · exact inv.takenAll
    · exact inv.outLog
    · dsimp only
      omega
    · dsimp only
      exact records_step hload hrt rfl
    · unfold pipeFuel
      dsimp only
      omega
  · -- nextAccount
    have hok := inv.stageOk i _ hl
    have hopen := sum_map_set stageOpen s.stages i _
      { pc := WorkerPc.idle, events := ev, held := hd, done := d } hl
    have hidl := sum_map_set (fun st => pcIdle st.pc) s.stages i _
      { pc := WorkerPc.idle, events := ev, held := hd, done := d } hl
    have hfuel := sum_map_set stageFuel s.stages i _
      { pc := WorkerPc.idle, events := ev, held := hd, done := d } hl
    have hload := sum_map_set_add (fun st => (stageLoad st : Multiset InternetRoute))
      s.stages i _
      { pc := WorkerPc.idle, events := ev, held := hd, done := d } hl
    have hflt := sum_map_set (fun st => pcFault st.pc) s.stages i _
      { pc := WorkerPc.idle, events := ev, held := hd, done := d } hl
    simp only [pcFault_idle, pcFault_scanning, pcFault_exited, ctlFault_next,
      ctlFault_returned] at hflt
    simp only [stageOpen_mk, stageFuel_mk, stageLoad_mk, pcIdle_scanning, pcIdle_idle,
      pcFuel_scanning, pcFuel_idle, pcQueue_scanning, pcQueue_idle, List.length_nil]
      at hopen hidl hfuel hload
    refine ⟨⟨?_, ?_, ?_, ?_, ?_, ?_, ?_, ?_, ?_, ?_, ?_⟩, ?_⟩
    · simpa using inv.len
    · apply forall_getElem?_set inv.stageOk
      exact ⟨fun _ => hok.live (by simp), fun hx => absurd hx (by simp),
        fun hx => by have := hok.doneAfter hx; simp at this,
        fun q c hx => absurd hx (by simp)⟩
    · exact inv.inClosedEmpty
    · dsimp only
      omega
    · exact inv.closed
    · intro hx
      have := inv.idle hx
      dsimp only
      omega
    · intro hx
      exact absurd (hcrashed hx) id
    · exact inv.takenAll
    · exact inv.outLog
    · dsimp only
      omega
    · dsimp only
      exact records_step hload hrt rfl
    · unfold pipeFuel
      dsimp only
      omega
  · -- failReturn
    have hok := inv.stageOk i _ hl
    have hopen := sum_map_set stageOpen s.stages i _
      { pc := WorkerPc.exited, events := ev ++ [ChanEvent.closed], held := hd, done := d } hl
    have hidl := sum_map_set (fun st => pcIdle st.pc) s.stages i _
      { pc := WorkerPc.exited, events := ev ++ [ChanEvent.closed], held := hd, done := d } hl
    have hfuel := sum_map_set stageFuel s.stages i _
      { pc := WorkerPc.exited, events := ev ++ [ChanEvent.closed], held := hd, done := d } hl
    have hload := sum_map_set_add (fun st => (stageLoad st : Multiset InternetRoute))
      s.stages i _
      { pc := WorkerPc.exited, events := ev ++ [ChanEvent.closed], held := hd, done := d } hl
    have hflt := sum_map_set (fun st => pcFault st.pc) s.stages i _
      { pc := WorkerPc.exited, events := ev ++ [ChanEvent.closed], held := hd, done := d } hl
    simp only [pcFault_idle, pcFault_scanning, pcFault_exited, ctlFault_next,
      ctlFault_returned] at hflt
    simp only [stageOpen_mk, stageFuel_mk, stageLoad_mk, pcIdle_scanning, pcIdle_exited,
      pcFuel_scanning, pcFuel_exited, pcQueue_scanning, pcQueue_exited, List.length_nil]
      at hopen hidl hfuel hload
    refine ⟨⟨?_, ?_, ?_, ?_, ?_, ?_, ?_, ?_, ?_, ?_, ?_⟩, ?_⟩
    · simpa using inv.len
    · apply forall_getElem?_set inv.stageOk
      obtain ⟨recs, hrecs⟩ := hok.live (by simp)
      replace hrecs : ev = recs.map ChanEvent.sent := hrecs
      exact ⟨fun hx => absurd rfl hx, fun _ => ⟨recs, by simp [hrecs]⟩,
        fun hx => by have := hok.doneAfter hx; simp at this,
        fun q c hx => absurd hx (by simp)⟩
    · exact inv.inClosedEmpty
    · dsimp only
      omega
    · exact inv.closed
    · intro hx
      have := inv.idle hx
      dsimp only
      omega
    · intro hx
      exact absurd (hcrashed hx) id
    · exact inv.takenAll
    · exact inv.outLog
    · dsimp only
      omega
    · dsimp only
      exact records_step hload hrt rfl
    · unfold pipeFuel
      dsimp only
      omega
  · -- panic
    refine ⟨⟨inv.len, inv.stageOk, inv.inClosedEmpty, inv.wgCount, inv.closed, inv.idle,
      fun _ => ⟨i, _, hl, rfl⟩, inv.takenAll, inv.outLog, inv.faults, inv.routes⟩, ?_⟩
    simp [pipeFuel, hcr]
  · -- forward
    have hok := inv.stageOk i _ hl
    have hpos := wg_pos_of_stage inv hl rfl
    rcases hsub with ⟨hc, _⟩ | ⟨hc, rfl⟩
    · have := inv.closed hc
      omega
    have hopen := sum_map_set stageOpen s.stages i _
      { pc := pc, events := ev, held := none, done := false } hl
    have hidl := sum_map_set (fun st => pcIdle st.pc) s.stages i _
      { pc := pc, events := ev, held := none, done := false } hl
    have hfuel := sum_map_set stageFuel s.stages i _
      { pc := pc, events := ev, held := none, done := false } hl
    have hload := sum_map_set_add (fun st => (stageLoad st : Multiset InternetRoute))
      s.stages i _
      { pc := pc, events := ev, held := none, done := false } hl
    have hflt := sum_map_set (fun st => pcFault st.pc) s.stages i _
      { pc := pc, events := ev, held := none, done := false } hl
    simp only [pcFault_idle, pcFault_scanning, pcFault_exited, ctlFault_next,
      ctlFault_returned] at hflt
    simp only [stageOpen_mk, stageFuel_mk, stageLoad_mk, Option.toList, List.length_nil,
      List.length_singleton] at hopen hidl hfuel hload
    refine ⟨⟨?_, ?_, ?_, ?_, ?_, ?_, ?_, ?_, ?_, ?_, ?_⟩, ?_⟩
    · simpa using inv.len
    · apply forall_getElem?_set inv.stageOk
      exact ⟨hok.live, hok.closedOnce, fun hx => absurd hx (by simp), hok.scanOf⟩
    · exact inv.inClosedEmpty
    · dsimp only
      omega
    · intro hx
      exact absurd (show s.outClosed = true from hx) (by simp [hc])
    · intro hx
      have := inv.idle hx
      dsimp only
      omega
    · intro hx
      exact absurd (hcrashed hx) id
    · exact inv.takenAll
    · have := inv.outLog
      rw [hc] at this
      dsimp only
      rw [this, hc]
      simp
    · dsimp only
      omega
    · dsimp only
      refine records_step hload hrt ?_
      simp only [← Multiset.coe_add, Multiset.coe_nil, zero_add]
      abel
    · unfold pipeFuel
      dsimp only
      omega
  · -- finish
    have hok := inv.stageOk i _ hl
    have hpos := wg_pos_of_stage inv hl rfl
    rcases hsub with ⟨hc, _⟩ | ⟨hc, rfl⟩
    · omega
    have hopen := sum_map_set stageOpen s.stages i _
      { pc := WorkerPc.exited, events := ev, held := none, done := true } hl
    have hidl := sum_map_set (fun st => pcIdle st.pc) s.stages i _
      { pc := WorkerPc.exited, events := ev, held := none, done := true } hl
    have hfuel := sum_map_set stageFuel s.stages i _
      { pc := WorkerPc.exited, events := ev, held := none, done := true } hl
    have hload := sum_map_set_add (fun st => (stageLoad st : Multiset InternetRoute))
      s.stages i _
      { pc := WorkerPc.exited, events := ev, held := none, done := true } hl
    have hflt := sum_map_set (fun st => pcFault st.pc) s.stages i _
      { pc := WorkerPc.exited, events := ev, held := none, done := true } hl
    simp only [pcFault_idle, pcFault_scanning, pcFault_exited, ctlFault_next,
      ctlFault_returned] at hflt
    simp only [stageOpen_mk, stageFuel_mk, stageLoad_mk, Option.toList, List.length_nil,
      Bool.false_eq_true, if_true, if_false] at hopen hidl hfuel hload
    refine ⟨⟨?_, ?_, ?_, ?_, ?_, ?_, ?_, ?_, ?_, ?_, ?_⟩, ?_⟩
    · simpa using inv.len
    · apply forall_getElem?_set inv.stageOk
      exact ⟨fun hx => absurd rfl hx, hok.closedOnce, fun _ => ⟨rfl, rfl⟩,
        fun q c hx => absurd hx (by simp)⟩
    · exact inv.inClosedEmpty
    · dsimp only
      omega
    · intro hx
      have := inv.closed hx
      omega
    · intro hx
      have := inv.idle hx
      dsimp only
      omega
    · intro hx
      exact absurd (hcrashed hx) id
    · exact inv.takenAll
    · exact inv.outLog
    · dsimp only
      omega
    · dsimp only
      exact records_step hload hrt rfl
    · unfold pipeFuel
      dsimp only
      omega
  · -- closeOut
    refine ⟨⟨inv.len, inv.stageOk, inv.inClosedEmpty, inv.wgCount, fun _ => hwg, inv.idle,
      inv.crashedBy, inv.takenAll, ?_, inv.faults, inv.routes⟩, ?_⟩
    · have := inv.outLog
      rw [hoc] at this
      dsimp only
      rw [this]
      simp
    · simp [pipeFuel, hoc]

/-- Every interleaving of the pipeline keeps the invariant, and is no longer
than the fuel it uses up. -/
theorem runPipe_inv {backend : Backend} {regions accounts : List String}
    (sched : List PipeAction) {s s' : Pipeline} (inv : PipeInv backend regions accounts s)
    (h : runPipe backend regions sched s = some s') :
    PipeInv backend regions accounts s'
      ∧ sched.length + pipeFuel backend regions s' ≤ pipeFuel backend regions s := by
  induction sched generalizing s with
  | nil =>
    simp only [runPipe, Option.some.injEq] at h
    subst h
    exact ⟨inv, by simp⟩
  | cons a rest ih =>
    simp only [runPipe] at h
    cases hstep : pipeStep backend regions a s with
    | none => simp [hstep] at h
    | some s1 =>
      simp only [hstep] at h
      obtain ⟨inv1, hlt⟩ := pipeStep_inv inv hstep
      obtain ⟨inv', hle⟩ := ih inv1 h
      refine ⟨inv', ?_⟩
      simp only [List.length_cons]
      omega

/-- When no step of the pipeline is enabled and no goroutine has panicked,
every account has been taken, every worker has returned, every `output`
goroutine has finished and `merge`'s channel is closed. -/
theorem pipe_stuck {backend : Backend} {regions accounts : List String} {s : Pipeline}
    (inv : PipeInv backend regions accounts s)
    (hstuck : ∀ a, pipeStep backend regions a s = none) (hcr : s.crashed = false) :
    s.backlog = [] ∧ s.inClosed = true
      ∧ (∀ (i : Nat) (st : Stage), s.stages[i]? = some st →
          st.pc = WorkerPc.exited ∧ st.held = none ∧ st.done = true)
      ∧ s.outClosed = true := by
  have hheld : ∀ (i : Nat) (st : Stage), s.stages[i]? = some st → st.held = none := by
    intro i st hl
    obtain ⟨pc, ev, hd, d⟩ := st
    cases hd with
    | none => rfl
    | some n =>
      cases d with
      | true => exact ((inv.stageOk i _ hl).doneAfter rfl).2
      | false =>
        exfalso
        have := hstuck (PipeAction.forward i)
        cases hc : s.outClosed <;> simp [pipeStep, hcr, hl, hc] at this
  have hexit : ∀ (i : Nat) (st : Stage), s.stages[i]? = some st → st.pc = WorkerPc.exited := by
    intro i st hl
    have hh := hheld i st hl
    obtain ⟨pc, ev, hd, d⟩ := st
    simp only at hh
    subst hh
    cases pc with
    | exited => rfl
    | idle =>
      exfalso
      cases hb : s.backlog with
      | cons account rest =>
        have := hstuck (PipeAction.take i)
        simp [pipeStep, hcr, hl, hb] at this
      | nil =>
        cases hic : s.inClosed with
        | false =>
          have := hstuck PipeAction.closeIn
          simp [pipeStep, hcr, hb, hic] at this
        | true =>
          have := hstuck (PipeAction.drained i)
          simp [pipeStep, hcr, hl, hic] at this
    | scanning q c =>
      exfalso
      cases q with
      | cons n q =>
        cases d with
        | true =>
          have := ((inv.stageOk i _ hl).doneAfter rfl).1
          simp at this
        | false =>
          have := hstuck (PipeAction.send i)
          simp [pipeStep, hcr, hl] at this
      | nil =>
        cases c with
        | next =>
          have := hstuck (PipeAction.nextAccount i)
          simp [pipeStep, hcr, hl] at this
        | returned =>
          have := hstuck (PipeAction.failReturn i)
          simp [pipeStep, hcr, hl] at this
        | panicked =>
          have := hstuck (PipeAction.panic i)
          simp [pipeStep, hcr, hl] at this
  have hdone : ∀ (i : Nat) (st : Stage), s.stages[i]? = some st → st.done = true := by
    intro i st hl
    have hh := hheld i st hl
    have he := hexit i st hl
    obtain ⟨pc, ev, hd, d⟩ := st
    simp only at hh he
    subst hh he
    cases d with
    | true => rfl
    | false =>
      exfalso
      have := hstuck (PipeAction.finish i)
      by_cases hc : s.wg = 0 <;> simp [pipeStep, hcr, hl, hc] at this
  have hidle : (s.stages.map fun st => pcIdle st.pc).sum = 0 := by
    apply sum_map_eq_zero
    intro st hst
    obtain ⟨i, hi⟩ := List.mem_iff_getElem?.1 hst
    rw [hexit i st hi]
    rfl
  have hwg : s.wg = 0 := by
    rw [inv.wgCount]
    apply sum_map_eq_zero
    intro st hst
    obtain ⟨i, hi⟩ := List.mem_iff_getElem?.1 hst
    simp [stageOpen, hdone i st hi]
  have hb : s.backlog = [] := by
    cases hic : s.inClosed with
    | true => exact inv.inClosedEmpty hic
    | false =>
      have := inv.idle hic
      rw [hidle] at this
      exact List.length_eq_zero.1 (by omega)
  refine ⟨hb, ?_, fun i st hl => ⟨hexit i st hl, hheld i st hl, hdone i st hl⟩, ?_⟩
  · cases hic : s.inClosed with
    | true => rfl
    | false =>
      exfalso
      have := hstuck PipeAction.closeIn
      simp [pipeStep, hcr, hb, hic] at this
  · cases hoc : s.outClosed with
    | true => rfl
    | false =>
      exfalso
      have := hstuck PipeAction.closeOut
      simp [pipeStep, hcr, hwg, hoc] at this

theorem sum_stageOpen_add_countP (l : List Stage) :
    (l.map stageOpen).sum + l.countP (fun st => st.done) = l.length := by
  induction l with
  | nil => rfl
  | cons st rest ih =>
    simp only [List.map_cons, List.sum_cons, List.length_cons, List.countP_cons, stageOpen]
    cases st.done <;> simp <;> omega

/-- When `merge`'s channel is closed, every worker has returned and every
`output` goroutine has finished. -/
theorem all_done_of_closed {backend : Backend} {regions accounts : List String} {s : Pipeline}
    (inv : PipeInv backend regions accounts s) (hoc : s.outClosed = true)
    (i : Nat) (st : Stage) (hl : s.stages[i]? = some st) :
    st.pc = WorkerPc.exited ∧ st.done = true := by
  have hd : st.done = true := by
    cases hdone : st.done with
    | true => rfl
    | false =>
      have := wg_pos_of_stage inv hl hdone
      have := inv.closed hoc
      omega
  exact ⟨((inv.stageOk i st hl).doneAfter hd).1, hd⟩

/-- The completion protocol of the pipeline. `main` starts one worker per
account and `wg` starts at the number of accounts. Along every interleaving a
worker that has returned, by either path, has sent and then closed its channel
once, and one that has not returned has not closed it; `wg` counts the
`output` goroutines that have not run `wg.Done()`, and one runs it only after
its worker closed its channel; `merge`'s channel is closed at most once, after
its last send, and only when every worker has closed its channel; it is closed
once every worker has returned and no step is left, and with no account it can
be closed at once. Every interleaving is finite, a goroutine panics only in
the scan of an account that stops with a nil dereference, and an interleaving
with no panic and no step left ends with every worker returned, its channel
closed once after its sends, `wg` at zero and `merge`'s channel closed once
after its last send. -/
theorem pipeline_completion_protocol (backend : Backend) (regions accounts : List String)
    (sched : List PipeAction) (s : Pipeline)
    (hrun : runPipe backend regions sched (pipeInit accounts) = some s) :
    (pipeInit accounts).stages.length = accounts.length
    ∧ (pipeInit accounts).wg = accounts.length
    ∧ s.stages.length = accounts.length
    ∧ (∀ (i : Nat) (st : Stage), s.stages[i]? = some st →
        (st.pc = WorkerPc.exited →
          ∃ recs : List InternetRoute, st.events = recs.map ChanEvent.sent ++ [ChanEvent.closed])
        ∧ (st.pc ≠ WorkerPc.exited →
          ∃ recs : List InternetRoute, st.events = recs.map ChanEvent.sent)
        ∧ (st.done = true → st.pc = WorkerPc.exited))
    ∧ s.wg + s.stages.countP (fun st => st.done) = accounts.length
    ∧ s.outEvents
        = s.allRoutes.map ChanEvent.sent ++ (if s.outClosed then [ChanEvent.closed] else [])
    ∧ (s.outClosed = true → ∀ (i : Nat) (st : Stage), s.stages[i]? = some st →
        st.pc = WorkerPc.exited ∧ st.done = true)
    ∧ ((∀ (i : Nat) (st : Stage), s.stages[i]? = some st → st.pc = WorkerPc.exited) →
        (∀ a, pipeStep backend regions a s = none) → s.outClosed = true)
    ∧ (accounts = [] →
        (pipeStep backend regions PipeAction.closeOut (pipeInit accounts)).map
          (fun s1 => s1.outClosed) = some true)
    ∧ sched.length ≤ pipeFuel backend regions (pipeInit accounts)
    ∧ (s.crashed = true →
        ∃ account ∈ accounts, (accountBody backend regions account).2 = Ctl.panicked)
    ∧ ((∀ a, pipeStep backend regions a s = none) → s.crashed = false →
        (∀ (i : Nat) (st : Stage), s.stages[i]? = some st →
          st.pc = WorkerPc.exited ∧ st.held = none ∧ st.done = true
            ∧ ∃ recs : List InternetRoute,
                st.events = recs.map ChanEvent.sent ++ [ChanEvent.closed])
        ∧ s.wg = 0 ∧ s.stages.countP (fun st => st.done) = accounts.length
        ∧ s.outClosed = true
        ∧ s.outEvents = s.allRoutes.map ChanEvent.sent ++ [ChanEvent.closed]) := by
  obtain ⟨inv, hfuel⟩ := runPipe_inv sched (pipeInit_inv backend regions accounts) hrun
  have hcount : s.wg + s.stages.countP (fun st => st.done) = accounts.length := by
    rw [inv.wgCount, sum_stageOpen_add_countP, inv.len]
  refine ⟨by simp [pipeInit, startWorkers_eq], by simp [pipeInit, startWorkers_eq], inv.len,
    ?_, hcount, inv.outLog, ?_, ?_, ?_, by omega, ?_, ?_⟩
  · intro i st hl
    have hok := inv.stageOk i st hl
    exact ⟨hok.closedOnce, hok.live, fun hd => (hok.doneAfter hd).1⟩
  · intro hoc i st hl
    exact all_done_of_closed inv hoc i st hl
  · intro hall hstuck
    have hcr : s.crashed = false := by
      cases hc : s.crashed with
      | false => rfl
      | true =>
        obtain ⟨i, st, hl, hpc⟩ := inv.crashedBy hc
        have := hall i st hl
        rw [hpc] at this
        exact absurd this (by simp)
    exact (pipe_stuck inv hstuck hcr).2.2.2
  · intro ha
    subst ha
    rfl
  · intro hc
    obtain ⟨i, st, hl, hpc⟩ := inv.crashedBy hc
    obtain ⟨account, hmem, hstop⟩ := (inv.stageOk i st hl).scanOf [] Ctl.panicked hpc
    exact ⟨account, hmem, hstop.symm⟩
  · intro hstuck hcr
    obtain ⟨_, _, hall, hoc⟩ := pipe_stuck inv hstuck hcr
    have hwg : s.wg = 0 := inv.closed hoc
    refine ⟨?_, hwg, by omega, hoc, ?_⟩
    · intro i st hl
      obtain ⟨hpc, hheld, hdone⟩ := hall i st hl
      exact ⟨hpc, hheld, hdone, (inv.stageOk i st hl).closedOnce hpc⟩
    · have := inv.outLog
      rw [hoc] at this
      simpa using this

theorem recordsOf_eq_flatMap (backend : Backend) (regions accounts : List String) :
    recordsOf backend regions accounts
      = ((accounts.flatMap fun account => (accountBody backend regions account).1 :
          List InternetRoute) : Multiset InternetRoute) := by
  induction accounts with
  | nil => rfl
  | cons account rest ih =>
    rw [recordsOf_cons, ih, List.flatMap_cons, Multiset.coe_add]

theorem faultsOf_pos {backend : Backend} {regions accounts : List String} {account : String}
    (hmem : account ∈ accounts) (hf : (accountBody backend regions account).2 = Ctl.panicked) :
    0 < faultsOf backend regions accounts := by
  induction accounts with
  | nil => simp at hmem
  | cons x rest ih =>
    rw [faultsOf_cons]
    rcases List.mem_cons.1 hmem with rfl | h
    · rw [hf]
      simp [ctlFault]
    · have := ih h
      omega

/-- The pipeline with an account whose scan panics: along every interleaving
`merge`'s channel stays open, so `main` never leaves its merge loop and never
writes the report; and an interleaving that cannot go on has crashed. -/
theorem pipeline_never_completes_when_faulty (backend : Backend)
    (regions accounts : List String) (account : String) (hmem : account ∈ accounts)
    (hfault : (accountBody backend regions account).2 = Ctl.panicked)
    (sched : List PipeAction) (s : Pipeline)
    (hrun : runPipe backend regions sched (pipeInit accounts) = some s) :
    s.outClosed = false
      ∧ ((∀ a, pipeStep backend regions a s = none) → s.crashed = true) := by
  obtain ⟨inv, _⟩ := runPipe_inv sched (pipeInit_inv backend regions accounts) hrun
  have hpos := faultsOf_pos hmem hfault
  have hft := inv.faults
  have key : (∀ (i : Nat) (st : Stage), s.stages[i]? = some st → st.pc = WorkerPc.exited) →
      s.backlog = [] → False := by
    intro hall hb
    have h0 : (s.stages.map fun st => pcFault st.pc).sum = 0 := by
      apply sum_map_eq_zero
      intro st hst
      obtain ⟨i, hi⟩ := List.mem_iff_getElem?.1 hst
      rw [hall i st hi]
      rfl
    rw [hb, h0] at hft
    simp [faultsOf] at hft
    simp [faultsOf] at hpos
    omega
  constructor
  · cases hoc : s.outClosed with
    | false => rfl
    | true =>
      exfalso
      have hall := fun i st hl => (all_done_of_closed inv hoc i st hl).1
      apply key hall
      cases hic : s.inClosed with
      | true => exact inv.inClosedEmpty hic
      | false =>
        have := inv.idle hic
        have h0 : (s.stages.map fun st => pcIdle st.pc).sum = 0 := by
          apply sum_map_eq_zero
          intro st hst
          obtain ⟨i, hi⟩ := List.mem_iff_getElem?.1 hst
          rw [hall i st hi]
          rfl
        rw [h0] at this
        exact List.length_eq_zero.1 (by omega)
  · intro hstuck
    cases hcr : s.crashed with
    | true => rfl
    | false =>
      exfalso
      obtain ⟨hb, _, hall, _⟩ := pipe_stuck inv hstuck hcr
      exact key (fun i st hl => (hall i st hl).1) hb

/-- The pipeline where no scan panics: along every interleaving no goroutine
panics and the interleaving is finite; once no step is left `merge`'s channel
is closed, every account has been taken by a worker, once and in the order of
the account list, and `allRoutes` holds, up to order, the records of every
account. -/
theorem pipeline_completes_when_no_fault (backend : Backend) (regions accounts : List String)
    (hnofault : ∀ account ∈ accounts, (accountBody backend regions account).2 ≠ Ctl.panicked)
    (sched : List PipeAction) (s : Pipeline)
    (hrun : runPipe backend regions sched (pipeInit accounts) = some s) :
    s.crashed = false
      ∧ sched.length ≤ pipeFuel backend regions (pipeInit accounts)
      ∧ ((∀ a, pipeStep backend regions a s = none) →
          s.outClosed = true ∧ s.taken.map Prod.snd = accounts
            ∧ List.Perm s.allRoutes
                (accounts.flatMap fun account => (accountBody backend regions account).1)) := by
  obtain ⟨inv, hfuel⟩ := runPipe_inv sched (pipeInit_inv backend regions accounts) hrun
  have hcr : s.crashed = false := by
    cases hc : s.crashed with
    | false => rfl
    | true =>
      obtain ⟨i, st, hl, hpc⟩ := inv.crashedBy hc
      obtain ⟨account, hmem, hstop⟩ := (inv.stageOk i st hl).scanOf [] Ctl.panicked hpc
      exact absurd hstop.symm (hnofault account hmem)
  refine ⟨hcr, by omega, ?_⟩
  intro hstuck
  obtain ⟨hb, _, hall, hoc⟩ := pipe_stuck inv hstuck hcr
  refine ⟨hoc, ?_, ?_⟩
  · have := inv.takenAll
    rw [hb, List.append_nil] at this
    exact this
  · have hrt := inv.routes
    have h0 : (s.stages.map fun st => (stageLoad st : Multiset InternetRoute)).sum = 0 := by
      apply sum_map_eq_zero_add
      intro st hst
      obtain ⟨i, hi⟩ := List.mem_iff_getElem?.1 hst
      obtain ⟨hpc, hheld, _⟩ := hall i st hi
      simp [stageLoad, hpc, hheld, pcQueue]
    rw [h0, hb, recordsOf_eq_flatMap, recordsOf_eq_flatMap] at hrt
    simp only [List.flatMap_nil, Multiset.coe_nil, add_zero] at hrt
    exact Multiset.coe_eq_coe.1 hrt

theorem scenarioFinal_stuck (a : PipeAction) :
    pipeStep scenarioBackend ["us-east-1"] a scenarioFinal = none := by
  cases a with
  | take i => rcases i with _ | _ | i <;> simp [pipeStep, scenarioFinal]
  | closeIn => simp [pipeStep, scenarioFinal]
  | drained i => rcases i with _ | _ | i <;> simp [pipeStep, scenarioFinal]
  | send i => rcases i with _ | _ | i <;> simp [pipeStep, scenarioFinal]
  | nextAccount i => rcases i with _ | _ | i <;> simp [pipeStep, scenarioFinal]
  | failReturn i => rcases i with _ | _ | i <;> simp [pipeStep, scenarioFinal]
  | panic i => rcases i with _ | _ | i <;> simp [pipeStep, scenarioFinal]
  | forward i => rcases i with _ | _ | i <;> simp [pipeStep, scenarioFinal]
  | finish i => rcases i with _ | _ | i <;> simp [pipeStep, scenarioFinal]
  | closeOut => simp [pipeStep, scenarioFinal]

theorem scenario_run :
    runPipe scenarioBackend ["us-east-1"] scenarioSchedule
      (pipeInit ["111111111111", "222222222222"]) = some scenarioFinal := by
  decide

/-- The completion protocol at the end of one interleaving of the spec's
scenario, where no step is left: both workers closed their channel once, the
first after its finding and the second after its sentinel, `wg` is back to
zero after two decrements, and `merge`'s channel was closed once, after its
last send. -/
theorem pipeline_completion_protocol_witness :
    scenarioFinal.wg + scenarioFinal.stages.countP (fun st => st.done) = 2
      ∧ scenarioFinal.outEvents
          = [ChanEvent.sent scenarioFinding, ChanEvent.sent (sentinel "222222222222"),
             ChanEvent.closed]
      ∧ scenarioFinal.wg = 0 ∧ scenarioFinal.outClosed = true
      ∧ scenarioFinal.stages.countP (fun st => st.done) = 2 := by
  have h := pipeline_completion_protocol scenarioBackend ["us-east-1"]
    ["111111111111", "222222222222"] scenarioSchedule scenarioFinal scenario_run
  have hend := h.2.2.2.2.2.2.2.2.2.2.2 scenarioFinal_stuck rfl
  exact ⟨h.2.2.2.2.1, by rw [h.2.2.2.2.2.1]; rfl, hend.2.1, hend.2.2.2.1, hend.2.2.1⟩

/-- C2: with one account whose first route has no destination CIDR, the
worker takes the account and panics; the process ends with `merge`'s channel
open and `allRoutes` empty, and nothing is written. -/
theorem pipeline_crashes_without_cidr :
    runPipe noCidrBackend ["us-east-1"] [PipeAction.take 0, PipeAction.panic 0]
        (pipeInit ["111111111111"]) = some crashedState
      ∧ crashedState.crashed = true ∧ crashedState.outClosed = false
      ∧ crashedState.allRoutes = [] := by
  decide

/-- C4: the completion protocol is cut short by the nil dereference of
`main.go:145`. With one account whose first route has no destination CIDR the
one worker takes the account and panics: it has not closed its channel,
`wg` is still at one, nothing was done on `merge`'s channel, which is open,
and no step is left, so the worker's channel is never closed, `wg` is never
decremented and `merge`'s channel is never closed. -/
theorem pipeline_protocol_cut_by_panic :
    runPipe noCidrBackend ["us-east-1"] [PipeAction.take 0, PipeAction.panic 0]
        (pipeInit ["111111111111"]) = some crashedState
      ∧ crashedState.stages.map (fun st => st.events) = [[]]
      ∧ crashedState.stages.map (fun st => st.done) = [false]
      ∧ crashedState.wg = 1
      ∧ crashedState.outEvents = [] ∧ crashedState.outClosed = false
      ∧ (∀ a, pipeStep noCidrBackend ["us-east-1"] a crashedState = none) := by
  refine ⟨by decide, rfl, rfl, rfl, rfl, rfl, ?_⟩
  intro a
  rfl

/-- The pipeline that cannot complete, at the one-account run that panics. -/
theorem pipeline_never_completes_witness : crashedState.outClosed = false :=
  (pipeline_never_completes_when_faulty noCidrBackend ["us-east-1"] ["111111111111"]
    "111111111111" (by decide) (by decide) [PipeAction.take 0, PipeAction.panic 0]
    crashedState (by decide)).1

/-- The pipeline that completes, at the spec's scenario: the aggregate is the
finding of the first account and the sentinel of the second, in some order. -/
theorem pipeline_completes_witness :
    List.Perm [scenarioFinding, sentinel "222222222222"]
      ((["111111111111", "222222222222"]).flatMap fun account =>
        (accountBody scenarioBackend ["us-east-1"] account).1) :=
  ((pipeline_completes_when_no_fault scenarioBackend ["us-east-1"]
    ["111111111111", "222222222222"] (by decide) scenarioSchedule scenarioFinal
    scenario_run).2.2 scenarioFinal_stuck).2.2

/-- The partial-failure shape at the second page of `secondPageFailsBackend`. -/
theorem accountBody_failure_shape_witness :
    accountBody secondPageFailsBackend ["us-east-1", "us-west-2"] "111111111111"
      = ([scenarioFinding, sentinel "111111111111"], Ctl.returned) := by
  have h := accountBody_failure_shape secondPageFailsBackend ["us-east-1", "us-west-2"]
    "111111111111" [] ["us-west-2"] "us-east-1"
    [{ RouteTables := [{
        VpcId := some "vpc-1"
        RouteTableId := some "rtb-1"
        Routes := [{ GatewayId := some "igw-abc123", DestinationCidrBlock := some "0.0.0.0/0" }] }] }]
    [] rfl (by simp) (by decide) (by simp) (by simp)
  rw [h]
  decide

/-- Every record of `allRoutes` was sent during the scan of one of the
accounts. -/
theorem mem_allRoutes {backend : Backend} {regions accounts : List String} {s : Pipeline}
    (inv : PipeInv backend regions accounts s) {rec : InternetRoute}
    (h : rec ∈ s.allRoutes) :
    ∃ account ∈ accounts, rec ∈ (accountBody backend regions account).1 := by
  have hm : rec ∈ (s.allRoutes : Multiset InternetRoute)
      + (s.stages.map fun st => (stageLoad st : Multiset InternetRoute)).sum
      + recordsOf backend regions s.backlog := by
    rw [Multiset.mem_add, Multiset.mem_add]
    exact Or.inl (Or.inl (Multiset.mem_coe.2 h))
  rw [inv.routes, recordsOf_eq_flatMap, Multiset.mem_coe, List.mem_flatMap] at hm
  exact hm

/-- C10: a finding is never shaped like a sentinel. Every record that a
worker sends, whatever accounts it takes, and every record of the aggregate
`allRoutes` at any point of any interleaving of the pipeline, is either
shaped like a sentinel (region empty, every optional field absent) or a
finding whose gateway is present and contains `igw-`; and it is the sentinel
of its account exactly when its gateway is absent. -/
theorem getRoute_record_shape (backend : Backend) (regions accounts : List String)
    (sched : List PipeAction) (s : Pipeline) (rec : InternetRoute)
    (h : rec ∈ (getRoute backend regions accounts).1
      ∨ (runPipe backend regions sched (pipeInit accounts) = some s ∧ rec ∈ s.allRoutes)) :
    ((rec.Region = "" ∧ rec.Vpc = none ∧ rec.RouteTable = none ∧ rec.DestinationCidr = none
        ∧ rec.InternetGateway = none)
      ∨ ∃ gw, rec.InternetGateway = some gw ∧ "igw-".data <:+: gw.data)
    ∧ (rec = sentinel rec.Account ↔ rec.InternetGateway = none) := by
  rcases h with h | ⟨hrun, h⟩
  · obtain ⟨account, _, hrec⟩ := forRange_mem _ _ _ h
    exact record_shape_of_mem_accountBody hrec
  · obtain ⟨inv, _⟩ := runPipe_inv sched (pipeInit_inv backend regions accounts) hrun
    obtain ⟨account, _, hrec⟩ := mem_allRoutes inv h
    exact record_shape_of_mem_accountBody hrec

/-- C10 (witness): the shape theorem at a finding with no VPC, no route table
and the empty region name, once as a record the worker sends and once as a
record of the aggregate: it is not the sentinel of its account, and its
gateway is present and contains `igw-`. -/
theorem getRoute_record_shape_witness :
    (getRoute bareBackend [""] ["111111111111"]).1 = [bareFinding]
      ∧ runPipe bareBackend [""] bareSchedule (pipeInit ["111111111111"]) = some bareState
      ∧ bareState.allRoutes = [bareFinding]
      ∧ bareFinding.Region = "" ∧ bareFinding.Vpc = none ∧ bareFinding.RouteTable = none
      ∧ bareFinding ≠ sentinel bareFinding.Account
      ∧ (∃ gw, bareFinding.InternetGateway = some gw ∧ "igw-".data <:+: gw.data)
      ∧ (bareFinding = sentinel bareFinding.Account ↔ bareFinding.InternetGateway = none) := by
  have hworker := getRoute_record_shape bareBackend [""] ["111111111111"] []
    (pipeInit ["111111111111"]) bareFinding (Or.inl (by decide))
  have hagg := getRoute_record_shape bareBackend [""] ["111111111111"] bareSchedule
    bareState bareFinding (Or.inr ⟨by decide, by decide⟩)
  refine ⟨by decide, by decide, rfl, rfl, rfl, rfl, ?_, ?_, hagg.2⟩
  · intro heq
    exact absurd (hworker.2.1 heq) (by decide)
  · rcases hagg.1 with hs | hf
    · exact absurd hs.2.2.2.2 (by decide)
    · exact hf

end OrgTool
